import Mathlib

/-!
# Verification of the jsonld_ex diff/patch core

Shallow embedding of the Rust diff/patch engine in
`src/native/jsonld_nif/src/lib.rs`, together with theorems settling the
frozen claims C1–C10 about the structural, operational and semantic
diff/patch engines.

Modelling conventions:
* `serde_json::Value` is embedded as `JValue`; numbers are embedded as `Int`
  (the claims under study never depend on float-specific behaviour).
* Objects are association lists in insertion order (the crate is built with
  order-preserving maps; the code treats key order as semantically
  irrelevant, compare `values_equal_simd`).
* The 64-bit `ahash`-based structural hash `compute_value_hash_fast` is
  modelled as an injective structural encoding into `String`
  (a collision-free idealisation of the hash).
* The thread-local `HASH_CACHE` is threaded explicitly as an association
  list from cache keys to hashes.
* Nondeterministic UUID generation (`uuid::Uuid::new_v4`) is modelled by an
  explicit supply of fresh strings passed in by the caller.
-/

/-- The document value model (`serde_json::Value`). -/
inductive JValue where
  | null : JValue
  | bool (b : Bool) : JValue
  | num (n : Int) : JValue
  | str (s : String) : JValue
  | arr (xs : List JValue) : JValue
  | obj (kvs : List (String × JValue)) : JValue

/-- First binding of a key in an object, as `serde_json::Map::get`. -/
def lookupKey : List (String × JValue) → String → Option JValue
  | [], _ => none
  | (k, v) :: rest, key => if k = key then some v else lookupKey rest key

/-- `serde_json::Map::insert`: replace in place if the key exists (keeping
its position, as an order-preserving map does), else append. -/
def insertKey : List (String × JValue) → String → JValue → List (String × JValue)
  | [], k, v => [(k, v)]
  | (k', v') :: rest, k, v =>
      if k' = k then (k, v) :: rest else (k', v') :: insertKey rest k v

/-- `serde_json::Map::remove` (the order of the remaining keys is
immaterial to every property proved here). -/
def removeKey : List (String × JValue) → String → List (String × JValue)
  | [], _ => []
  | (k', v') :: rest, k => if k' = k then rest else (k', v') :: removeKey rest k

/-- `Vec::insert` with the index already clamped to the length by the
caller; inserting at or past the end appends. -/
def insertAt : List JValue → Nat → JValue → List JValue
  | xs, 0, v => v :: xs
  | [], _ + 1, v => [v]
  | x :: rest, n + 1, v => x :: insertAt rest n v

/-- `Value::as_u64` on an embedded number (negative numbers give `none`). -/
def asU64 : JValue → Option Nat
  | .num n => if 0 ≤ n then some n.toNat else none
  | _ => none

mutual
/-- `values_equal_simd`: structural deep equality, order-sensitive for
arrays, order-insensitive for objects. -/
def valuesEqual : JValue → JValue → Bool
  | .null, .null => true
  | .bool a, .bool b => a == b
  | .num a, .num b => a == b
  | .str a, .str b => a == b
  | .arr a, .arr b => a.length == b.length && arrEqual a b
  | .obj a, .obj b => a.length == b.length && objSubset a b
  | _, _ => false

/-- Pointwise equality of the elements of two arrays (`zip … all`). -/
def arrEqual : List JValue → List JValue → Bool
  | [], [] => true
  | a :: as_, b :: bs => valuesEqual a b && arrEqual as_ bs
  | _, _ => false

/-- Every binding of the first object is matched by the second
(`a_obj.iter().all(|(key, a_val)| b_obj.get(key) … )`). -/
def objSubset : List (String × JValue) → List (String × JValue) → Bool
  | [], _ => true
  | (k, va) :: rest, b =>
      (match lookupKey b k with
       | some vb => valuesEqual va vb
       | none => false) && objSubset rest b
end

/-- Concrete disequality from a computed `valuesEqual` mismatch together
with computed reflexivity at the right-hand value. -/
theorem jvalue_ne_of_valuesEqual {a b : JValue}
    (hab : valuesEqual a b = false) (hbb : valuesEqual b b = true) : a ≠ b := by
  intro h
  rw [h] at hab
  rw [hab] at hbb
  exact Bool.noConfusion hbb

/-- Field access `op.get(k)` on a document that may not be an object. -/
def getField (v : JValue) (k : String) : Option JValue :=
  match v with
  | .obj kvs => lookupKey kvs k
  | _ => none

/-- `…​.and_then(|v| v.as_str()).unwrap_or("")`. -/
def getStrField (v : JValue) (k : String) : String :=
  match getField v k with
  | some (.str s) => s
  | _ => ""

/-! ## Operational patch application (`apply_operational_operations`) -/

/-- `set_value_at_path_recursive`: a `set` past the end of an array, or
into a non-container, or through a missing key, leaves the value
unchanged. -/
def setPathRec : JValue → List JValue → JValue → JValue
  | cur, [], _ => cur
  | cur, key :: rest, value =>
    if rest.isEmpty then
      match cur, key with
      | .obj kvs, .str k => .obj (insertKey kvs k value)
      | .arr xs, .num n =>
          match asU64 (.num n) with
          | some idx => if h : idx < xs.length then .arr (xs.set idx value) else .arr xs
          | none => .arr xs
      | cur', _ => cur'
    else
      match cur, key with
      | .obj kvs, .str k =>
          match lookupKey kvs k with
          | some next => .obj (insertKey kvs k (setPathRec next rest value))
          | none => .obj kvs
      | .arr xs, .num n =>
          match asU64 (.num n) with
          | some idx =>
              if h : idx < xs.length then
                .arr (xs.set idx (setPathRec xs[idx] rest value))
              else .arr xs
          | none => .arr xs
      | cur', _ => cur'

/-- `set_value_at_path`. -/
def setValueAtPath (document : JValue) (path : List JValue) (value : JValue) : JValue :=
  match path with
  | [] => value
  | _ => setPathRec document path value

/-- Recursion of `delete_value_at_path`. -/
def delPathRec : JValue → List JValue → JValue
  | cur, [] => cur
  | cur, key :: rest =>
    if rest.isEmpty then
      match cur, key with
      | .obj kvs, .str k => .obj (removeKey kvs k)
      | .arr xs, .num n =>
          match asU64 (.num n) with
          | some idx => if idx < xs.length then .arr (xs.eraseIdx idx) else .arr xs
          | none => .arr xs
      | cur', _ => cur'
    else
      match cur, key with
      | .obj kvs, .str k =>
          match lookupKey kvs k with
          | some next => .obj (insertKey kvs k (delPathRec next rest))
          | none => .obj kvs
      | .arr xs, .num n =>
          match asU64 (.num n) with
          | some idx =>
              if h : idx < xs.length then
                .arr (xs.set idx (delPathRec xs[idx] rest))
              else .arr xs
          | none => .arr xs
      | cur', _ => cur'

/-- `delete_value_at_path`. -/
def deleteValueAtPath (document : JValue) (path : List JValue) : JValue :=
  match path with
  | [] => .null
  | _ => delPathRec document path

/-- Recursion of `insert_value_at_path`: the only path operation that
clamps an out-of-range final array index to the length (appending). -/
def insPathRec : JValue → List JValue → JValue → JValue
  | cur, [], _ => cur
  | cur, key :: rest, value =>
    if rest.isEmpty then
      match cur, key with
      | .arr xs, .num n =>
          match asU64 (.num n) with
          | some idx =>
              let insertPos := if idx ≤ xs.length then idx else xs.length
              .arr (insertAt xs insertPos value)
          | none => .arr xs
      | .obj kvs, .str k => .obj (insertKey kvs k value)
      | cur', _ => cur'
    else
      match cur, key with
      | .arr xs, .num n =>
          match asU64 (.num n) with
          | some idx =>
              if h : idx < xs.length then
                .arr (xs.set idx (insPathRec xs[idx] rest value))
              else .arr xs
          | none => .arr xs
      | .obj kvs, .str k =>
          match lookupKey kvs k with
          | some next => .obj (insertKey kvs k (insPathRec next rest value))
          | none => .obj kvs
      | cur', _ => cur'

/-- `insert_value_at_path`. -/
def insertValueAtPath (document : JValue) (path : List JValue) (value : JValue) : JValue :=
  match path with
  | [] => value
  | _ => insPathRec document path value

/-- `op.get("timestamp").and_then(|v| v.as_u64()).unwrap_or(0)`. -/
def opTimestamp (op : JValue) : Nat :=
  match getField op "timestamp" with
  | some v => (asU64 v).getD 0
  | none => 0

/-- `apply_single_operation`. -/
def applySingleOperation (document op : JValue) : JValue :=
  let opType := getStrField op "type"
  let path : List JValue :=
    match getField op "path" with
    | some (.arr p) => p
    | _ => []
  match opType with
  | "set" =>
      match getField op "value" with
      | some v => setValueAtPath document path v
      | none => document
  | "delete" => deleteValueAtPath document path
  | "insert" =>
      match getField op "value" with
      | some v => insertValueAtPath document path v
      | none => document
  | _ => document

/-- Comparison key of the stable sort in `apply_operational_operations`
and `merge_operational_diffs`. -/
def tsLe (a b : JValue) : Prop := opTimestamp a ≤ opTimestamp b

instance : DecidableRel tsLe := fun _ _ => Nat.decLe _ _

instance : IsTotal JValue tsLe := ⟨fun _ _ => Nat.le_total _ _⟩

instance : IsTrans JValue tsLe := ⟨fun _ _ _ => Nat.le_trans⟩

/-- `apply_operational_operations`: stable sort by timestamp, then a left
fold of `apply_single_operation` over the document. -/
def applyOperationalOperations (document : JValue) (operations : List JValue) : JValue :=
  (List.insertionSort tsLe operations).foldl applySingleOperation document

/-- `diff.get("operations")`, defaulting to no operations. -/
def diffOperations (d : JValue) : List JValue :=
  match getField d "operations" with
  | some (.arr ops) => ops
  | _ => []

/-- `patch_operational` on already-parsed documents. -/
def patchOperational (document patch : JValue) : JValue :=
  applyOperationalOperations document (diffOperations patch)

/-! ## Operational diff generation (`compute_operational_diff`) -/

/-- Options of `diff_operational` (`parse_operational_options`). -/
structure OperationalOptions where
  actorId : String
  baseTimestamp : Nat
  conflictResolution : String

/-- One emitted operation
(`json!({"type": …, "path": …, "value": …, "timestamp": …, "actor_id": …})`). -/
def mkOp (opType : String) (path : List JValue) (value : JValue)
    (ts : Nat) (actor : String) : JValue :=
  .obj [("type", .str opType), ("path", .arr path), ("value", value),
        ("timestamp", .num (Int.ofNat ts)), ("actor_id", .str actor)]

/-- The deletes emitted for an array diff, one per supplied index, in
supplied order (`diff_arrays_operational`, first loop, reversed range). -/
def arrayDeleteOps (idxs : List Nat) (path : List String) (o : OperationalOptions)
    (ts : Nat) : List JValue × Nat :=
  match idxs with
  | [] => ([], ts)
  | i :: rest =>
      let r := arrayDeleteOps rest path o (ts + 1)
      (mkOp "delete" ((path ++ [toString i]).map .str) .null ts o.actorId :: r.1, r.2)

/-- The inserts emitted for an array diff
(`diff_arrays_operational`, second loop). -/
def arrayInsertOps (items : List JValue) (i : Nat) (path : List String)
    (o : OperationalOptions) (ts : Nat) : List JValue × Nat :=
  match items with
  | [] => ([], ts)
  | v :: rest =>
      let r := arrayInsertOps rest (i + 1) path o (ts + 1)
      (mkOp "insert" ((path ++ [toString i]).map .str) v ts o.actorId :: r.1, r.2)

/-- `set` operations for keys present only on the new side
(`diff_objects_operational`, `(None, Some)` arm). -/
def diffObjectsNewOps (bEntries aFull : List (String × JValue)) (path : List String)
    (o : OperationalOptions) (ts : Nat) : List JValue × Nat :=
  match bEntries with
  | [] => ([], ts)
  | (k, vb) :: rest =>
      match lookupKey aFull k with
      | some _ => diffObjectsNewOps rest aFull path o ts
      | none =>
          let r := diffObjectsNewOps rest aFull path o (ts + 1)
          (mkOp "set" ((path ++ [k]).map .str) vb ts o.actorId :: r.1, r.2)

mutual
/-- `diff_values_operational`; the mutated `timestamp` counter is threaded
as the second component. -/
def diffValuesOperational (old new : JValue) (path : List String)
    (o : OperationalOptions) (ts : Nat) : List JValue × Nat :=
  if valuesEqual old new then ([], ts)
  else
    match old, new with
    | .obj a, .obj b =>
        let r1 := diffObjectsOldOps a b path o ts
        let r2 := diffObjectsNewOps b a path o r1.2
        (r1.1 ++ r2.1, r2.2)
    | .arr a, .arr b =>
        let r1 := arrayDeleteOps (List.range a.length).reverse path o ts
        let r2 := arrayInsertOps b 0 path o r1.2
        (r1.1 ++ r2.1, r2.2)
    | _, new' => ([mkOp "set" (path.map .str) new' ts o.actorId], ts + 1)

/-- `diff_objects_operational` for keys present on the old side: recursive
diff when the key survives, a `delete` when it was removed. -/
def diffObjectsOldOps (aEntries bFull : List (String × JValue)) (path : List String)
    (o : OperationalOptions) (ts : Nat) : List JValue × Nat :=
  match aEntries with
  | [] => ([], ts)
  | (k, va) :: rest =>
      let r1 : List JValue × Nat :=
        match lookupKey bFull k with
        | some vb => diffValuesOperational va vb (path ++ [k]) o ts
        | none => ([mkOp "delete" ((path ++ [k]).map .str) .null ts o.actorId], ts + 1)
      let r2 := diffObjectsOldOps rest bFull path o r1.2
      (r1.1 ++ r2.1, r2.2)
end

/-- `compute_operational_diff`, returning the serialized diff document. -/
def computeOperationalDiff (old new : JValue) (o : OperationalOptions) : JValue :=
  let r := diffValuesOperational old new [] o o.baseTimestamp
  .obj [("operations", .arr r.1),
        ("metadata", .obj
          [("actors", .arr [.str o.actorId]),
           ("timestamp_range", .arr [.num (Int.ofNat o.baseTimestamp), .num (Int.ofNat r.2)]),
           ("conflict_resolution", .str o.conflictResolution)])]

/-- An operational diff document as consumed by `merge_operational_diffs`
(`operations` plus `metadata.actors`). -/
def opDiffDoc (ops : List JValue) (actors : List String) : JValue :=
  .obj [("operations", .arr ops),
        ("metadata", .obj [("actors", .arr (actors.map .str))])]

/-- The actor list extracted by `merge_operational_diffs` from one diff. -/
def diffActors (d : JValue) : List String :=
  match getField d "metadata" with
  | some md =>
      match getField md "actors" with
      | some (.arr actors) =>
          actors.foldr
            (fun a acc => match a with | .str s => s :: acc | _ => acc) []
      | _ => []
  | _ => []

/-- Deduplicating actor accumulation (`if !all_actors.contains … push`). -/
def dedupAppend (acc : List String) (more : List String) : List String :=
  match more with
  | [] => acc
  | a :: rest => dedupAppend (if a ∈ acc then acc else acc ++ [a]) rest

/-- `merge_operational_diffs`: concatenate the operation logs,
deduplicate the actors, and re-sort the operations by timestamp. -/
def mergeOperationalDiffs (diffs : List JValue) : JValue :=
  let allOps := diffs.foldl (fun acc d => acc ++ diffOperations d) []
  let allActors := diffs.foldl (fun acc d => dedupAppend acc (diffActors d)) []
  .obj [("operations", .arr (List.insertionSort tsLe allOps)),
        ("metadata", .obj
          [("actors", .arr (allActors.map .str)),
           ("conflict_resolution", .str "last_write_wins")])]

/-! ## Timestamp discipline of the operational diff (claim C5) -/

/-- The operations carry timestamps `ts, ts + 1, …` in emission order. -/
def tsConsecutive (ts : Nat) (ops : List JValue) : Prop :=
  ops.map opTimestamp = List.range' ts ops.length

theorem opTimestamp_mkOp (opType : String) (path : List JValue) (v : JValue)
    (ts : Nat) (actor : String) : opTimestamp (mkOp opType path v ts actor) = ts := by
  simp [opTimestamp, mkOp, getField, lookupKey, asU64]

theorem tsConsecutive_nil (ts : Nat) : tsConsecutive ts [] := rfl

theorem tsConsecutive_cons {ts : Nat} {op : JValue} {rest : List JValue}
    (h : opTimestamp op = ts) (hrest : tsConsecutive (ts + 1) rest) :
    tsConsecutive ts (op :: rest) := by
  simp only [tsConsecutive, List.map_cons, List.length_cons, List.range',
    List.cons.injEq] at *
  exact ⟨h, hrest⟩

theorem tsConsecutive_append {ts : Nat} {xs ys : List JValue}
    (h1 : tsConsecutive ts xs) (h2 : tsConsecutive (ts + xs.length) ys) :
    tsConsecutive ts (xs ++ ys) := by
  induction xs generalizing ts with
  | nil => simpa using h2
  | cons x xs ih =>
      simp only [tsConsecutive, List.map_cons, List.length_cons, List.range',
        List.cons.injEq] at h1
      have h2' : tsConsecutive (ts + 1 + xs.length) ys := by
        have e : ts + 1 + xs.length = ts + (x :: xs).length := by
          simp [List.length_cons]
          omega
        rw [e]
        exact h2
      have tail := @ih (ts + 1) h1.2 h2'
      simp only [List.cons_append, tsConsecutive, List.map_cons, List.length_cons,
        List.range', List.cons.injEq]
      exact ⟨h1.1, by simpa [tsConsecutive] using tail⟩

theorem arrayDeleteOps_ts (idxs : List Nat) (path : List String)
    (o : OperationalOptions) (ts : Nat) :
    (arrayDeleteOps idxs path o ts).2 = ts + (arrayDeleteOps idxs path o ts).1.length
    ∧ tsConsecutive ts (arrayDeleteOps idxs path o ts).1 := by
  induction idxs generalizing ts with
  | nil => exact ⟨rfl, tsConsecutive_nil ts⟩
  | cons i rest ih =>
      have h := ih (ts + 1)
      constructor
      · simp only [arrayDeleteOps, List.length_cons, h.1]
        omega
      · exact tsConsecutive_cons (opTimestamp_mkOp _ _ _ _ _) h.2

theorem arrayInsertOps_ts (items : List JValue) (i : Nat) (path : List String)
    (o : OperationalOptions) (ts : Nat) :
    (arrayInsertOps items i path o ts).2 = ts + (arrayInsertOps items i path o ts).1.length
    ∧ tsConsecutive ts (arrayInsertOps items i path o ts).1 := by
  induction items generalizing i ts with
  | nil => exact ⟨rfl, tsConsecutive_nil ts⟩
  | cons v rest ih =>
      have h := ih (i + 1) (ts + 1)
      constructor
      · simp only [arrayInsertOps, List.length_cons, h.1]
        omega
      · exact tsConsecutive_cons (opTimestamp_mkOp _ _ _ _ _) h.2

theorem diffObjectsNewOps_ts (bEntries aFull : List (String × JValue)) (path : List String)
    (o : OperationalOptions) (ts : Nat) :
    (diffObjectsNewOps bEntries aFull path o ts).2
      = ts + (diffObjectsNewOps bEntries aFull path o ts).1.length
    ∧ tsConsecutive ts (diffObjectsNewOps bEntries aFull path o ts).1 := by
  induction bEntries generalizing ts with
  | nil => exact ⟨rfl, tsConsecutive_nil ts⟩
  | cons kv rest ih =>
      obtain ⟨k, vb⟩ := kv
      cases hk : lookupKey aFull k with
      | some w =>
          have h := ih ts
          constructor
          · simp only [diffObjectsNewOps, hk, h.1]
          · simpa only [diffObjectsNewOps, hk] using h.2
      | none =>
          have h := ih (ts + 1)
          constructor
          · simp only [diffObjectsNewOps, hk, List.length_cons, h.1]
            omega
          · simp only [diffObjectsNewOps, hk]
            exact tsConsecutive_cons (opTimestamp_mkOp _ _ _ _ _) h.2

theorem tsConsecutive_single (opType : String) (path : List JValue) (v : JValue)
    (ts : Nat) (actor : String) : tsConsecutive ts [mkOp opType path v ts actor] :=
  tsConsecutive_cons (opTimestamp_mkOp _ _ _ _ _) (tsConsecutive_nil _)

mutual
/-- Every operation log emitted by `diff_values_operational` carries
consecutive timestamps from the supplied counter, and leaves the counter
at the start plus the number of emitted operations. -/
theorem diffValuesOperational_ts : ∀ (old new : JValue) (path : List String)
    (o : OperationalOptions) (ts : Nat),
    (diffValuesOperational old new path o ts).2
      = ts + (diffValuesOperational old new path o ts).1.length
    ∧ tsConsecutive ts (diffValuesOperational old new path o ts).1
  | .obj a, new, path, o, ts => by
      cases new with
      | obj b =>
          by_cases h : valuesEqual (.obj a) (.obj b) = true
          · simp [diffValuesOperational, h, tsConsecutive_nil]
          · have h1 := diffObjectsOldOps_ts a b path o ts
            have h2 := diffObjectsNewOps_ts b a path o (diffObjectsOldOps a b path o ts).2
            simp only [diffValuesOperational, Bool.not_eq_true] at *
            simp only [h, Bool.false_eq_true, if_false]
            constructor
            · simp only [List.length_append]
              omega
            · refine tsConsecutive_append h1.2 ?_
              rw [← h1.1]
              exact h2.2
      | null => simp [diffValuesOperational, valuesEqual, tsConsecutive_single]
      | bool b => simp [diffValuesOperational, valuesEqual, tsConsecutive_single]
      | num n => simp [diffValuesOperational, valuesEqual, tsConsecutive_single]
      | str s => simp [diffValuesOperational, valuesEqual, tsConsecutive_single]
      | arr xs => simp [diffValuesOperational, valuesEqual, tsConsecutive_single]
  | .arr a, new, path, o, ts => by
      cases new with
      | arr b =>
          by_cases h : valuesEqual (.arr a) (.arr b) = true
          · simp [diffValuesOperational, h, tsConsecutive_nil]
          · have h1 := arrayDeleteOps_ts (List.range a.length).reverse path o ts
            have h2 := arrayInsertOps_ts b 0 path o
              (arrayDeleteOps (List.range a.length).reverse path o ts).2
            simp only [diffValuesOperational, Bool.not_eq_true] at *
            simp only [h, Bool.false_eq_true, if_false]
            constructor
            · simp only [List.length_append]
              omega
            · refine tsConsecutive_append h1.2 ?_
              rw [← h1.1]
              exact h2.2
      | null => simp [diffValuesOperational, valuesEqual, tsConsecutive_single]
      | bool b => simp [diffValuesOperational, valuesEqual, tsConsecutive_single]
      | num n => simp [diffValuesOperational, valuesEqual, tsConsecutive_single]
      | str s => simp [diffValuesOperational, valuesEqual, tsConsecutive_single]
      | obj kvs => simp [diffValuesOperational, valuesEqual, tsConsecutive_single]
  | .null, new, path, o, ts => by
      cases new <;>
        simp [diffValuesOperational, valuesEqual, tsConsecutive_nil, tsConsecutive_single]
  | .bool b, new, path, o, ts => by
      cases new with
      | bool b' =>
          by_cases h : valuesEqual (.bool b) (.bool b') = true
          · simp [diffValuesOperational, h, tsConsecutive_nil]
          · simp only [Bool.not_eq_true] at h
            simp [diffValuesOperational, h, tsConsecutive_single]
      | null => simp [diffValuesOperational, valuesEqual, tsConsecutive_single]
      | num n => simp [diffValuesOperational, valuesEqual, tsConsecutive_single]
      | str s => simp [diffValuesOperational, valuesEqual, tsConsecutive_single]
      | arr xs => simp [diffValuesOperational, valuesEqual, tsConsecutive_single]
      | obj kvs => simp [diffValuesOperational, valuesEqual, tsConsecutive_single]
  | .num n, new, path, o, ts => by
      cases new with
      | num n' =>
          by_cases h : valuesEqual (.num n) (.num n') = true
          · simp [diffValuesOperational, h, tsConsecutive_nil]
          · simp only [Bool.not_eq_true] at h
            simp [diffValuesOperational, h, tsConsecutive_single]
      | null => simp [diffValuesOperational, valuesEqual, tsConsecutive_single]
      | bool b => simp [diffValuesOperational, valuesEqual, tsConsecutive_single]
      | str s => simp [diffValuesOperational, valuesEqual, tsConsecutive_single]
      | arr xs => simp [diffValuesOperational, valuesEqual, tsConsecutive_single]
      | obj kvs => simp [diffValuesOperational, valuesEqual, tsConsecutive_single]
  | .str s, new, path, o, ts => by
      cases new with
      | str s' =>
          by_cases h : valuesEqual (.str s) (.str s') = true
          · simp [diffValuesOperational, h, tsConsecutive_nil]
          · simp only [Bool.not_eq_true] at h
            simp [diffValuesOperational, h, tsConsecutive_single]
      | null => simp [diffValuesOperational, valuesEqual, tsConsecutive_single]
      | bool b => simp [diffValuesOperational, valuesEqual, tsConsecutive_single]
      | num n => simp [diffValuesOperational, valuesEqual, tsConsecutive_single]
      | arr xs => simp [diffValuesOperational, valuesEqual, tsConsecutive_single]
      | obj kvs => simp [diffValuesOperational, valuesEqual, tsConsecutive_single]

/-- As `diffValuesOperational_ts`, for the old-side object walk. -/
theorem diffObjectsOldOps_ts : ∀ (aEntries bFull : List (String × JValue))
    (path : List String) (o : OperationalOptions) (ts : Nat),
    (diffObjectsOldOps aEntries bFull path o ts).2
      = ts + (diffObjectsOldOps aEntries bFull path o ts).1.length
    ∧ tsConsecutive ts (diffObjectsOldOps aEntries bFull path o ts).1
  | [], _, _, _, ts => by simp [diffObjectsOldOps, tsConsecutive_nil]
  | (k, va) :: rest, bFull, path, o, ts => by
      cases hk : lookupKey bFull k with
      | some vb =>
          have h1 := diffValuesOperational_ts va vb (path ++ [k]) o ts
          have h2 := diffObjectsOldOps_ts rest bFull path o
            (diffValuesOperational va vb (path ++ [k]) o ts).2
          simp only [diffObjectsOldOps, hk]
          constructor
          · simp only [List.length_append]
            omega
          · refine tsConsecutive_append h1.2 ?_
            rw [← h1.1]
            exact h2.2
      | none =>
          have h2 := diffObjectsOldOps_ts rest bFull path o (ts + 1)
          simp only [diffObjectsOldOps, hk]
          constructor
          · simp only [List.length_append, List.length_cons, List.length_nil]
            omega
          · refine tsConsecutive_append (tsConsecutive_single _ _ _ _ _) ?_
            simpa using h2.2
end

/-- C5: for every old/new document pair and every supplied base timestamp,
the operation log emitted by `diff_operational` carries timestamps
`base_timestamp, base_timestamp + 1, …` in emission order: strictly
increasing, incremented by exactly one per emitted operation, starting at
the base. -/
theorem operational_timestamp_discipline (old new : JValue) (o : OperationalOptions) :
    (diffOperations (computeOperationalDiff old new o)).map opTimestamp
      = List.range' o.baseTimestamp
          (diffOperations (computeOperationalDiff old new o)).length := by
  have h := diffValuesOperational_ts old new [] o o.baseTimestamp
  simpa [diffOperations, computeOperationalDiff, getField, lookupKey,
    tsConsecutive] using h.2

/-! ## Merge convergence machinery (claim C4) -/

/-- Strict comparison on operation timestamps. -/
def tsLt (a b : JValue) : Prop := opTimestamp a < opTimestamp b

instance : IsAntisymm JValue tsLt :=
  ⟨fun _ _ h1 h2 => absurd (Nat.lt_trans h1 h2) (Nat.lt_irrefl _)⟩

theorem sorted_tsLt_of_sorted_tsLe {l : List JValue} (hs : List.Sorted tsLe l)
    (hd : (l.map opTimestamp).Nodup) : List.Sorted tsLt l := by
  have hne : l.Pairwise (fun a b => opTimestamp a ≠ opTimestamp b) := by
    simpa [List.Nodup, List.pairwise_map] using hd
  have := hs.and hne
  exact this.imp fun h => Nat.lt_of_le_of_ne h.1 h.2

/-- Two permutations of one operation list with pairwise-distinct
timestamps have the same timestamp sort. -/
theorem insertionSort_eq_of_perm {l₁ l₂ : List JValue} (hp : l₁.Perm l₂)
    (hd : (l₁.map opTimestamp).Nodup) :
    List.insertionSort tsLe l₁ = List.insertionSort tsLe l₂ := by
  have p1 := List.perm_insertionSort tsLe l₁
  have p2 := List.perm_insertionSort tsLe l₂
  have hd1 : ((List.insertionSort tsLe l₁).map opTimestamp).Nodup :=
    ((p1.map opTimestamp).nodup_iff).2 hd
  have hd2 : ((List.insertionSort tsLe l₂).map opTimestamp).Nodup :=
    ((p2.map opTimestamp).nodup_iff).2 ((hp.map opTimestamp).nodup_iff.1 hd)
  exact List.eq_of_perm_of_sorted
    ((p1.trans hp).trans p2.symm)
    (sorted_tsLt_of_sorted_tsLe (List.sorted_insertionSort tsLe l₁) hd1)
    (sorted_tsLt_of_sorted_tsLe (List.sorted_insertionSort tsLe l₂) hd2)

theorem insertionSort_tsLe_idem (l : List JValue) :
    List.insertionSort tsLe (List.insertionSort tsLe l) = List.insertionSort tsLe l :=
  List.Sorted.insertionSort_eq (List.sorted_insertionSort tsLe l)

theorem diffOperations_opDiffDoc (ops : List JValue) (actors : List String) :
    diffOperations (opDiffDoc ops actors) = ops := by
  simp [diffOperations, opDiffDoc, getField, lookupKey]

/-- C4: merging two operation logs with disjoint actor ids and pairwise
distinct timestamps with `merge_diffs_operational` and replaying the
merged log on a base document gives the same document as replaying the
union of the two logs, in either concatenation order. -/
theorem merge_convergence (base : JValue) (opsA opsB : List JValue)
    (actsA actsB : List String)
    (hts : ((opsA ++ opsB).map opTimestamp).Nodup)
    (_hactors : ∀ a ∈ actsA, a ∉ actsB) :
    patchOperational base
        (mergeOperationalDiffs [opDiffDoc opsA actsA, opDiffDoc opsB actsB])
      = applyOperationalOperations base (opsA ++ opsB)
    ∧ applyOperationalOperations base (opsA ++ opsB)
      = applyOperationalOperations base (opsB ++ opsA) := by
  constructor
  · have hops : diffOperations
        (mergeOperationalDiffs [opDiffDoc opsA actsA, opDiffDoc opsB actsB])
        = List.insertionSort tsLe (opsA ++ opsB) := by
      simp [mergeOperationalDiffs, diffOperations, opDiffDoc, getField, lookupKey]
    rw [patchOperational, hops, applyOperationalOperations,
      applyOperationalOperations, insertionSort_tsLe_idem]
  · rw [applyOperationalOperations, applyOperationalOperations,
      insertionSort_eq_of_perm List.perm_append_comm hts]

/-- Witness for `merge_convergence` at a concrete pair of logs. -/
theorem merge_convergence_witness :
    ((([mkOp "set" [.str "x"] (.num 1) 5 "a"] ++ [mkOp "set" [.str "y"] (.num 2) 9 "b"]).map
        opTimestamp).Nodup
      ∧ (∀ a ∈ ["a"], a ∉ ["b"]))
    ∧ (patchOperational (.obj [("x", .num 0)])
          (mergeOperationalDiffs
            [opDiffDoc [mkOp "set" [.str "x"] (.num 1) 5 "a"] ["a"],
             opDiffDoc [mkOp "set" [.str "y"] (.num 2) 9 "b"] ["b"]])
        = applyOperationalOperations (.obj [("x", .num 0)])
            ([mkOp "set" [.str "x"] (.num 1) 5 "a"] ++ [mkOp "set" [.str "y"] (.num 2) 9 "b"])
      ∧ applyOperationalOperations (.obj [("x", .num 0)])
            ([mkOp "set" [.str "x"] (.num 1) 5 "a"] ++ [mkOp "set" [.str "y"] (.num 2) 9 "b"])
        = applyOperationalOperations (.obj [("x", .num 0)])
            ([mkOp "set" [.str "y"] (.num 2) 9 "b"] ++ [mkOp "set" [.str "x"] (.num 1) 5 "a"])) :=
  ⟨⟨by decide, by decide⟩,
    merge_convergence (.obj [("x", .num 0)])
      [mkOp "set" [.str "x"] (.num 1) 5 "a"] [mkOp "set" [.str "y"] (.num 2) 9 "b"]
      ["a"] ["b"] (by decide) (by decide)⟩

/-! ## Path navigation lemmas (claims C8 and C10) -/

/-- Specification-side navigation along a path, mirroring the successful
navigation steps of the `*_value_at_path` family: an existing object key,
or an in-range array index. -/
def getPath : JValue → List JValue → Option JValue
  | v, [] => some v
  | .obj kvs, .str k :: rest =>
      match lookupKey kvs k with
      | some next => getPath next rest
      | none => none
  | .arr xs, .num n :: rest =>
      match asU64 (.num n) with
      | some idx => if h : idx < xs.length then getPath xs[idx] rest else none
      | none => none
  | _, _ => none

/-- Specification-side replacement of the subtree at a navigable path. -/
def updateAtPath : JValue → List JValue → JValue → JValue
  | _, [], newSub => newSub
  | .obj kvs, .str k :: rest, newSub =>
      match lookupKey kvs k with
      | some next => .obj (insertKey kvs k (updateAtPath next rest newSub))
      | none => .obj kvs
  | .arr xs, .num n :: rest, newSub =>
      match asU64 (.num n) with
      | some idx =>
          if h : idx < xs.length then .arr (xs.set idx (updateAtPath xs[idx] rest newSub))
          else .arr xs
      | none => .arr xs
  | v, _, _ => v

/-- The failure condition of claim C8 at the value reached by the path
prefix: the next segment indexes an array at or past its end, or the
value reached is not a container. -/
def blockedStep (sub seg : JValue) : Prop :=
  (∃ xs, sub = JValue.arr xs ∧ ∃ n : Int, seg = JValue.num n ∧ 0 ≤ n ∧ xs.length ≤ n.toNat)
  ∨ ((∀ xs, sub ≠ JValue.arr xs) ∧ (∀ kvs, sub ≠ JValue.obj kvs))

theorem insertKey_self : ∀ (kvs : List (String × JValue)) (k : String) (v : JValue),
    lookupKey kvs k = some v → insertKey kvs k v = kvs
  | [], _, _, h => by simp [lookupKey] at h
  | (k', v') :: rest, k, v, h => by
      by_cases hk : k' = k
      · subst hk
        simp [lookupKey] at h
        simp [insertKey, h]
      · simp [lookupKey, hk] at h
        simp [insertKey, hk, insertKey_self rest k v h]

theorem set_getElem_self : ∀ (xs : List JValue) (i : Nat) (h : i < xs.length),
    xs.set i xs[i] = xs
  | x :: rest, 0, _ => rfl
  | x :: rest, i + 1, h => by
      simp only [List.set, List.getElem_cons_succ]
      rw [set_getElem_self rest i (by simpa using h)]

theorem insertAt_length_append : ∀ (xs : List JValue) (v : JValue),
    insertAt xs xs.length v = xs ++ [v]
  | [], v => rfl
  | x :: rest, v => by
      simp only [List.length_cons, insertAt, List.cons_append]
      rw [insertAt_length_append rest v]

theorem isEmpty_append_cons (pre : List JValue) (seg : JValue) (rest : List JValue) :
    (pre ++ seg :: rest).isEmpty = false := by
  cases pre <;> simp

/-- A blocked `set` leaves the navigated document unchanged. -/
theorem setPathRec_blocked : ∀ (pre : List JValue) (doc sub seg : JValue)
    (rest : List JValue) (v : JValue),
    getPath doc pre = some sub → blockedStep sub seg →
    setPathRec doc (pre ++ seg :: rest) v = doc
  | [], doc, sub, seg, rest, v, hnav, hblocked => by
      simp only [getPath, Option.some.injEq] at hnav
      subst hnav
      rcases hblocked with ⟨xs, hxs, n, hn, hpos, hlen⟩ | ⟨harr, hobj⟩
      · subst hxs
        subst hn
        have hnlt : ¬(n.toNat < xs.length) := by omega
        cases rest with
        | nil => simp [setPathRec, asU64, hpos, hnlt]
        | cons r rs => simp [setPathRec, asU64, hpos, hnlt]
      · cases doc with
        | arr xs => exact absurd rfl (harr xs)
        | obj kvs => exact absurd rfl (hobj kvs)
        | null => cases rest <;> cases seg <;> rfl
        | bool b => cases rest <;> cases seg <;> rfl
        | num n => cases rest <;> cases seg <;> rfl
        | str s => cases rest <;> cases seg <;> rfl
  | p :: ps, doc, sub, seg, rest, v, hnav, hblocked => by
      cases doc with
      | obj kvs =>
          cases p with
          | str k =>
              cases hlk : lookupKey kvs k with
              | some next =>
                  simp only [getPath, hlk] at hnav
                  have ih := setPathRec_blocked ps next sub seg rest v hnav hblocked
                  simp [setPathRec, isEmpty_append_cons, hlk, ih,
                    insertKey_self kvs k next hlk]
              | none => simp [getPath, hlk] at hnav
          | null => simp [getPath] at hnav
          | bool b => simp [getPath] at hnav
          | num n => simp [getPath] at hnav
          | arr a => simp [getPath] at hnav
          | obj o => simp [getPath] at hnav
      | arr xs =>
          cases p with
          | num n =>
              cases hu : asU64 (.num n) with
              | some idx =>
                  simp only [getPath, hu] at hnav
                  by_cases hidx : idx < xs.length
                  · rw [dif_pos hidx] at hnav
                    have ih := setPathRec_blocked ps xs[idx] sub seg rest v hnav hblocked
                    simp [setPathRec, isEmpty_append_cons, hu, hidx, ih,
                      set_getElem_self xs idx hidx]
                  · rw [dif_neg hidx] at hnav
                    exact absurd hnav (by simp)
              | none => simp only [getPath, hu] at hnav; exact absurd hnav (by simp)
          | null => simp [getPath] at hnav
          | bool b => simp [getPath] at hnav
          | str s => simp [getPath] at hnav
          | arr a => simp [getPath] at hnav
          | obj o => simp [getPath] at hnav
      | null => simp [getPath] at hnav
      | bool b => simp [getPath] at hnav
      | num n => simp [getPath] at hnav
      | str s => simp [getPath] at hnav

/-- A blocked `delete` leaves the navigated document unchanged. -/
theorem delPathRec_blocked : ∀ (pre : List JValue) (doc sub seg : JValue)
    (rest : List JValue),
    getPath doc pre = some sub → blockedStep sub seg →
    delPathRec doc (pre ++ seg :: rest) = doc
  | [], doc, sub, seg, rest, hnav, hblocked => by
      simp only [getPath, Option.some.injEq] at hnav
      subst hnav
      rcases hblocked with ⟨xs, hxs, n, hn, hpos, hlen⟩ | ⟨harr, hobj⟩
      · subst hxs
        subst hn
        have hnlt : ¬(n.toNat < xs.length) := by omega
        cases rest with
        | nil => simp [delPathRec, asU64, hpos, hnlt]
        | cons r rs => simp [delPathRec, asU64, hpos, hnlt]
      · cases doc with
        | arr xs => exact absurd rfl (harr xs)
        | obj kvs => exact absurd rfl (hobj kvs)
        | null => cases rest <;> cases seg <;> rfl
        | bool b => cases rest <;> cases seg <;> rfl
        | num n => cases rest <;> cases seg <;> rfl
        | str s => cases rest <;> cases seg <;> rfl
  | p :: ps, doc, sub, seg, rest, hnav, hblocked => by
      cases doc with
      | obj kvs =>
          cases p with
          | str k =>
              cases hlk : lookupKey kvs k with
              | some next =>
                  simp only [getPath, hlk] at hnav
                  have ih := delPathRec_blocked ps next sub seg rest hnav hblocked
                  simp [delPathRec, isEmpty_append_cons, hlk, ih,
                    insertKey_self kvs k next hlk]
              | none => simp [getPath, hlk] at hnav
          | null => simp [getPath] at hnav
          | bool b => simp [getPath] at hnav
          | num n => simp [getPath] at hnav
          | arr a => simp [getPath] at hnav
          | obj o => simp [getPath] at hnav
      | arr xs =>
          cases p with
          | num n =>
              cases hu : asU64 (.num n) with
              | some idx =>
                  simp only [getPath, hu] at hnav
                  by_cases hidx : idx < xs.length
                  · rw [dif_pos hidx] at hnav
                    have ih := delPathRec_blocked ps xs[idx] sub seg rest hnav hblocked
                    simp [delPathRec, isEmpty_append_cons, hu, hidx, ih,
                      set_getElem_self xs idx hidx]
                  · rw [dif_neg hidx] at hnav
                    exact absurd hnav (by simp)
              | none => simp only [getPath, hu] at hnav; exact absurd hnav (by simp)
          | null => simp [getPath] at hnav
          | bool b => simp [getPath] at hnav
          | str s => simp [getPath] at hnav
          | arr a => simp [getPath] at hnav
          | obj o => simp [getPath] at hnav
      | null => simp [getPath] at hnav
      | bool b => simp [getPath] at hnav
      | num n => simp [getPath] at hnav
      | str s => simp [getPath] at hnav

theorem getStrField_mkOp (opType : String) (path : List JValue) (v : JValue)
    (ts : Nat) (actor : String) :
    getStrField (mkOp opType path v ts actor) "type" = opType := by
  simp [getStrField, getField, mkOp, lookupKey]

theorem getField_mkOp_path (opType : String) (path : List JValue) (v : JValue)
    (ts : Nat) (actor : String) :
    getField (mkOp opType path v ts actor) "path" = some (.arr path) := by
  simp [getField, mkOp, lookupKey]

theorem getField_mkOp_value (opType : String) (path : List JValue) (v : JValue)
    (ts : Nat) (actor : String) :
    getField (mkOp opType path v ts actor) "value" = some v := by
  simp [getField, mkOp, lookupKey]

/-- C8: replay is a timestamp-sorted left fold of `apply_single_operation`,
and a `set` or `delete` operation whose path indexes an array at or past
its end, or descends into a non-container value, leaves the document
unchanged for that operation while the remaining operations still apply. -/
theorem operational_patch_tolerance (doc : JValue) (opType : String)
    (pre : List JValue) (seg : JValue) (rest : List JValue) (v : JValue)
    (ts : Nat) (actor : String) (sub : JValue)
    (hty : opType = "set" ∨ opType = "delete")
    (hnav : getPath doc pre = some sub)
    (hblocked : blockedStep sub seg) :
    applySingleOperation doc (mkOp opType (pre ++ seg :: rest) v ts actor) = doc
    ∧ (∀ tail : List JValue,
        List.foldl applySingleOperation doc
            (mkOp opType (pre ++ seg :: rest) v ts actor :: tail)
          = List.foldl applySingleOperation doc tail)
    ∧ (∀ ops : List JValue,
        applyOperationalOperations doc ops
          = List.foldl applySingleOperation doc (List.insertionSort tsLe ops)) := by
  have happ : applySingleOperation doc (mkOp opType (pre ++ seg :: rest) v ts actor) = doc := by
    rcases hty with h | h <;> subst h
    · rw [applySingleOperation]
      simp only [getStrField_mkOp, getField_mkOp_path, getField_mkOp_value]
      have hpath : setValueAtPath doc (pre ++ seg :: rest) v
          = setPathRec doc (pre ++ seg :: rest) v := by
        cases pre <;> rfl
      rw [hpath]
      exact setPathRec_blocked pre doc sub seg rest v hnav hblocked
    · rw [applySingleOperation]
      simp only [getStrField_mkOp, getField_mkOp_path, getField_mkOp_value]
      have hpath : deleteValueAtPath doc (pre ++ seg :: rest)
          = delPathRec doc (pre ++ seg :: rest) := by
        cases pre <;> rfl
      rw [hpath]
      exact delPathRec_blocked pre doc sub seg rest hnav hblocked
  refine ⟨happ, fun tail => ?_, fun ops => rfl⟩
  rw [List.foldl_cons, happ]

/-- Witness for `operational_patch_tolerance`: a `set` at array index 5 of
a one-element array is a silent no-op. -/
theorem operational_patch_tolerance_witness :
    (("set" : String) = "set" ∨ ("set" : String) = "delete")
    ∧ getPath (.obj [("a", .arr [.num 1])]) [.str "a"] = some (.arr [.num 1])
    ∧ applySingleOperation (.obj [("a", .arr [.num 1])])
        (mkOp "set" ([.str "a"] ++ JValue.num 5 :: []) (.num 7) 0 "w")
      = .obj [("a", .arr [.num 1])] :=
  ⟨Or.inl rfl, rfl,
    (operational_patch_tolerance (.obj [("a", .arr [.num 1])]) "set"
      [.str "a"] (.num 5) [] (.num 7) 0 "w" (.arr [.num 1])
      (Or.inl rfl) rfl
      (Or.inl ⟨[.num 1], rfl, 5, rfl, by omega, by simp⟩)).1⟩

/-- An `insert` whose final array index is strictly past the end replaces
the navigated array by the array with the value appended. -/
theorem insPathRec_clamp : ∀ (pre : List JValue) (doc : JValue) (xs : List JValue)
    (n : Int) (v : JValue),
    getPath doc pre = some (.arr xs) → 0 ≤ n → xs.length < n.toNat →
    insPathRec doc (pre ++ [.num n]) v = updateAtPath doc pre (.arr (xs ++ [v]))
  | [], doc, xs, n, v, hnav, hpos, hlen => by
      simp only [getPath, Option.some.injEq] at hnav
      subst hnav
      have hne : ¬(n.toNat ≤ xs.length) := by omega
      simp [insPathRec, asU64, hpos, hne, updateAtPath, insertAt_length_append]
  | p :: ps, doc, xs, n, v, hnav, hpos, hlen => by
      cases doc with
      | obj kvs =>
          cases p with
          | str k =>
              cases hlk : lookupKey kvs k with
              | some next =>
                  simp only [getPath, hlk] at hnav
                  have ih := insPathRec_clamp ps next xs n v hnav hpos hlen
                  have hne : (ps ++ [JValue.num n]).isEmpty = false :=
                    isEmpty_append_cons ps (.num n) []
                  simp [insPathRec, hne, hlk, ih, updateAtPath]
              | none => simp [getPath, hlk] at hnav
          | null => simp [getPath] at hnav
          | bool b => simp [getPath] at hnav
          | num m => simp [getPath] at hnav
          | arr a => simp [getPath] at hnav
          | obj o => simp [getPath] at hnav
      | arr ys =>
          cases p with
          | num m =>
              cases hu : asU64 (.num m) with
              | some idx =>
                  simp only [getPath, hu] at hnav
                  by_cases hidx : idx < ys.length
                  · rw [dif_pos hidx] at hnav
                    have ih := insPathRec_clamp ps ys[idx] xs n v hnav hpos hlen
                    have hne : (ps ++ [JValue.num n]).isEmpty = false :=
                      isEmpty_append_cons ps (.num n) []
                    simp [insPathRec, hne, hu, hidx, ih, updateAtPath]
                  · rw [dif_neg hidx] at hnav
                    exact absurd hnav (by simp)
              | none => simp only [getPath, hu] at hnav; exact absurd hnav (by simp)
          | null => simp [getPath] at hnav
          | bool b => simp [getPath] at hnav
          | str s => simp [getPath] at hnav
          | arr a => simp [getPath] at hnav
          | obj o => simp [getPath] at hnav
      | null => simp [getPath] at hnav
      | bool b => simp [getPath] at hnav
      | num m => simp [getPath] at hnav
      | str s => simp [getPath] at hnav

/-- C10: replaying an `insert` operation whose final path segment is an
array index strictly greater than the target array's length appends the
value at the end of that array (the index is clamped), rather than
dropping the operation. -/
theorem insert_clamps_past_end (doc : JValue) (pre : List JValue) (n : Int)
    (v : JValue) (ts : Nat) (actor : String) (xs : List JValue)
    (hnav : getPath doc pre = some (.arr xs))
    (hpos : 0 ≤ n) (hlen : xs.length < n.toNat) :
    applySingleOperation doc (mkOp "insert" (pre ++ [.num n]) v ts actor)
      = updateAtPath doc pre (.arr (xs ++ [v])) := by
  rw [applySingleOperation]
  simp only [getStrField_mkOp, getField_mkOp_path, getField_mkOp_value]
  have hpath : insertValueAtPath doc (pre ++ [.num n]) v
      = insPathRec doc (pre ++ [.num n]) v := by
    cases pre <;> rfl
  rw [hpath]
  exact insPathRec_clamp pre doc xs n v hnav hpos hlen

/-- Witness for `insert_clamps_past_end`: inserting at index 5 of a
one-element array appends. -/
theorem insert_clamps_past_end_witness :
    getPath (.obj [("a", .arr [.num 1])]) [.str "a"] = some (.arr [.num 1])
    ∧ (0 : Int) ≤ 5 ∧ ([JValue.num 1]).length < (5 : Int).toNat
    ∧ applySingleOperation (.obj [("a", .arr [.num 1])])
        (mkOp "insert" ([.str "a"] ++ [.num 5]) (.num 9) 0 "w")
      = updateAtPath (.obj [("a", .arr [.num 1])]) [.str "a"]
          (.arr ([.num 1] ++ [.num 9])) :=
  ⟨rfl, by omega, by simp,
    insert_clamps_past_end (.obj [("a", .arr [.num 1])]) [.str "a"] 5
      (.num 9) 0 "w" [.num 1] rfl (by omega) (by simp)⟩

/-! ## Semantic triple extraction (`document_to_triples_fast`), claims C2, C7 -/

/-- Assoc-list lookup for string-valued caches. -/
def lookupStr : List (String × String) → String → Option String
  | [], _ => none
  | (k, v) :: rest, key => if k = key then some v else lookupStr rest key

/-- Assoc-list insert for string-valued caches. -/
def insertStr : List (String × String) → String → String → List (String × String)
  | [], k, v => [(k, v)]
  | (k', v') :: rest, k, v =>
      if k' = k then (k, v) :: rest else (k', v') :: insertStr rest k v

mutual
/-- `serde_json::to_string`: compact JSON serialization, used only as the
blank-node cache key (string escaping is omitted; the encoding is
injective on the documents under study). -/
def encodeJson : JValue → String
  | .null => "null"
  | .bool b => if b then "true" else "false"
  | .num n => toString n
  | .str s => "\"" ++ s ++ "\""
  | .arr xs => "[" ++ encodeJsonList xs ++ "]"
  | .obj kvs => "\x7b" ++ encodeJsonObj kvs ++ "\x7d"

def encodeJsonList : List JValue → String
  | [] => ""
  | [x] => encodeJson x
  | x :: y :: rest => encodeJson x ++ "," ++ encodeJsonList (y :: rest)

def encodeJsonObj : List (String × JValue) → String
  | [] => ""
  | [(k, v)] => "\"" ++ k ++ "\":" ++ encodeJson v
  | (k, v) :: e :: rest => "\"" ++ k ++ "\":" ++ encodeJson v ++ "," ++ encodeJsonObj (e :: rest)
end

/-- Lexicographic character-list comparison standing in for the byte
comparison of Rust string `Ord` (they agree on ASCII). -/
def charListLt : List Char → List Char → Bool
  | [], [] => false
  | [], _ :: _ => true
  | _ :: _, [] => false
  | a :: as_, b :: bs =>
      if a.val < b.val then true
      else if b.val < a.val then false
      else charListLt as_ bs

/-- Key-ordered insertion for `sorted_json_value`. -/
def insertEntryByKey (e : String × JValue) : List (String × JValue) → List (String × JValue)
  | [] => [e]
  | f :: rest =>
      if charListLt e.1.data f.1.data then e :: f :: rest else f :: insertEntryByKey e rest

/-- `entries.sort_by(|a, b| a.0.cmp(&b.0))`. -/
def sortEntriesByKey : List (String × JValue) → List (String × JValue)
  | [] => []
  | e :: rest => insertEntryByKey e (sortEntriesByKey rest)

mutual
/-- `sorted_json_value`: recursively sort object keys. -/
def sortedJsonValue : JValue → JValue
  | .obj kvs => .obj (sortEntriesByKey (sortedEntriesJson kvs))
  | .arr xs => .arr (sortedListJson xs)
  | v => v

def sortedListJson : List JValue → List JValue
  | [] => []
  | x :: rest => sortedJsonValue x :: sortedListJson rest

def sortedEntriesJson : List (String × JValue) → List (String × JValue)
  | [] => []
  | (k, v) :: rest => (k, sortedJsonValue v) :: sortedEntriesJson rest
end

/-- Character-list test standing in for `str::starts_with` (kept
kernel-computable; byte order and unicode-scalar order agree on the
ASCII prefixes used by the code). -/
def charListHead : List Char → List Char → Bool
  | [], _ => true
  | _ :: _, [] => false
  | a :: as_, b :: bs => a == b && charListHead as_ bs

def strStartsWith (s pre : String) : Bool :=
  charListHead pre.data s.data

def strContainsColon (s : String) : Bool :=
  s.data.any (fun c => c == ':')

/-- Everything before the first `':'` (`splitn(2, ':')`, first part). -/
def takeUntilColon : List Char → List Char
  | [] => []
  | c :: rest => if c == ':' then [] else c :: takeUntilColon rest

/-- Everything after the first `':'` (`splitn(2, ':')`, second part). -/
def dropThroughColon : List Char → List Char
  | [] => []
  | c :: rest => if c == ':' then rest else dropThroughColon rest

/-- `expand_property_iri_fast`. -/
def expandPropertyIriFast (property : String) : String :=
  if strStartsWith property "http://" || strStartsWith property "https://" then property
  else if strContainsColon property then
    let pfx := String.mk (takeUntilColon property.data)
    let localPart := String.mk (dropThroughColon property.data)
    if pfx = "schema" then "http://schema.org/" ++ localPart
    else if pfx = "rdf" then "http://www.w3.org/1999/02/22-rdf-syntax-ns#" ++ localPart
    else if pfx = "rdfs" then "http://www.w3.org/2000/01/rdf-schema#" ++ localPart
    else property
  else "http://example.org/" ++ property

def isIri (s : String) : Bool :=
  strStartsWith s "http://" || strStartsWith s "https://"

def xsdString : String := "http://www.w3.org/2001/XMLSchema#string"

def rdfTypeIri : String := "http://www.w3.org/1999/02/22-rdf-syntax-ns#type"

/-- `serialize_object_for_rdf` (numbers are embedded as `Int`, so the
`is_f64` branch is never taken and the literal type is `xsd:integer`). -/
def serializeObjectForRdf (object : JValue) : JValue :=
  match object with
  | .str s => if isIri s then .str s else .obj [("value", .str s), ("type", .str xsdString)]
  | .num n =>
      .obj [("value", .str (toString n)),
            ("type", .str "http://www.w3.org/2001/XMLSchema#integer")]
  | .bool b =>
      .obj [("value", .str (if b then "true" else "false")),
            ("type", .str "http://www.w3.org/2001/XMLSchema#boolean")]
  | .obj kvs =>
      match lookupKey kvs "@id" with
      | some (.str id) => .str id
      | _ =>
          match lookupKey kvs "@value" with
          | some val =>
              (match lookupKey kvs "@language" with
               | some (.str lang) => .obj [("value", val), ("language", .str lang)]
               | _ =>
                  match lookupKey kvs "@type" with
                  | some (.str t) => .obj [("value", val), ("type", .str t)]
                  | _ => .obj [("value", val), ("type", .str xsdString)])
          | none => object
  | _ => object

/-- The extraction state: the blank-node cache keyed by sorted
serialization, the supply of fresh UUID strings (modelling
`uuid::Uuid::new_v4`), and the accumulated triples. -/
structure ExtState where
  bnodeCache : List (String × String)
  supply : List String
  triples : List JValue

def mkTriple (s p : String) (o : JValue) : JValue :=
  .obj [("subject", .str s), ("predicate", .str p), ("object", o)]

def pushTriple (st : ExtState) (t : JValue) : ExtState :=
  { st with triples := st.triples ++ [t] }

/-- The subject of an object node: its string `@id`, or a blank-node id
cached under the sorted serialization of the subtree, freshly drawn from
the UUID supply on a cache miss. -/
def objSubjectAndState (kvs : List (String × JValue)) (st : ExtState) : String × ExtState :=
  match lookupKey kvs "@id" with
  | some (.str id) => (id, st)
  | _ =>
      let key := encodeJson (sortedJsonValue (.obj kvs))
      match lookupStr st.bnodeCache key with
      | some id => (id, st)
      | none =>
          let id := "_:h" ++ st.supply.headD ""
          (id, { st with bnodeCache := insertStr st.bnodeCache key id,
                         supply := st.supply.tail })

/-- The `rdf:type` triples of one subject (`@type` handling in
`extract_triples_node_fast`). -/
def extractTypeTriples (subject : String) (t : Option JValue) (st : ExtState) : ExtState :=
  match t with
  | some (.arr arr) =>
      arr.foldl
        (fun acc ty =>
          match ty with
          | .str ts => pushTriple acc (mkTriple subject rdfTypeIri
              (.str (expandPropertyIriFast ts)))
          | _ => acc) st
  | some (.str ts) =>
      pushTriple st (mkTriple subject rdfTypeIri (.str (expandPropertyIriFast ts)))
  | _ => st

mutual
/-- `extract_triples_node_fast`. The body of the object case is also
inlined at the nested-blank-node call site in `emitTripleForValue`
(where the Rust recursively calls `extract_triples_node_fast`). -/
def extractTriplesNodeFast : JValue → Option String → ExtState → Option String × ExtState
  | .obj kvs, _hint, st =>
      let p := objSubjectAndState kvs st
      let st2 := extractTypeTriples p.1 (lookupKey kvs "@type") p.2
      let st3 := extractProps p.1 kvs st2
      (some p.1, st3)
  | .arr xs, hint, st => extractArr xs hint st
  | _, hint, st => (hint, st)

/-- The array case of `extract_triples_node_fast`: fold over the items,
returning the last item's subject (`None` for an empty array). -/
def extractArr : List JValue → Option String → ExtState → Option String × ExtState
  | [], _hint, st => (none, st)
  | [x], hint, st => extractTriplesNodeFast x hint st
  | x :: y :: rest, hint, st =>
      let r := extractTriplesNodeFast x hint st
      extractArr (y :: rest) hint r.2

/-- The property loop of `extract_triples_node_fast`: every
non-`@`-prefixed key yields one triple per value (or per array element). -/
def extractProps (subject : String) : List (String × JValue) → ExtState → ExtState
  | [], st => st
  | (k, v) :: rest, st =>
      if strStartsWith k "@" then extractProps subject rest st
      else
        let pred := expandPropertyIriFast k
        let st' :=
          match v with
          | .arr arr => emitValues subject pred arr st
          | other => emitTripleForValue subject pred other st
        extractProps subject rest st'

def emitValues (subject pred : String) : List JValue → ExtState → ExtState
  | [], st => st
  | item :: rest, st => emitValues subject pred rest (emitTripleForValue subject pred item st)

/-- `emit_triple_for_value`. -/
def emitTripleForValue (subject pred : String) : JValue → ExtState → ExtState
  | .obj kvs, st =>
      (match lookupKey kvs "@id" with
       | some (.str id) => pushTriple st (mkTriple subject pred (.str id))
       | _ =>
          if (lookupKey kvs "@value").isSome then
            pushTriple st (mkTriple subject pred (serializeObjectForRdf (.obj kvs)))
          else
            let p := objSubjectAndState kvs st
            let st2 := extractTypeTriples p.1 (lookupKey kvs "@type") p.2
            let st3 := extractProps p.1 kvs st2
            pushTriple st3 (mkTriple subject pred (.str p.1)))
  | .str s, st =>
      if isIri s then pushTriple st (mkTriple subject pred (.str s))
      else pushTriple st (mkTriple subject pred
        (.obj [("value", .str s), ("type", .str xsdString)]))
  | .num n, st => pushTriple st (mkTriple subject pred (serializeObjectForRdf (.num n)))
  | .bool b, st => pushTriple st (mkTriple subject pred (serializeObjectForRdf (.bool b)))
  | _, st => st
end

/-- Collect the blank-node ids used as subject or string object
(`normalize_blank_nodes_fast`, first loop; the set is modelled as a
deduplicated list in first-seen order, which is irrelevant after
sorting). -/
def collectBnodes : List JValue → List String → List String
  | [], acc => acc
  | t :: rest, acc =>
      let acc1 :=
        match getField t "subject" with
        | some (.str s) =>
            if strStartsWith s "_:" then (if acc.contains s then acc else acc ++ [s]) else acc
        | _ => acc
      let acc2 :=
        match getField t "object" with
        | some (.str s) =>
            if strStartsWith s "_:" then (if acc1.contains s then acc1 else acc1 ++ [s]) else acc1
        | _ => acc1
      collectBnodes rest acc2

/-- Lexicographic insertion for `bnodes_vec.sort()`. -/
def insertStrSorted (s : String) : List String → List String
  | [] => [s]
  | t :: rest => if charListLt s.data t.data then s :: t :: rest else t :: insertStrSorted s rest

def sortStrings : List String → List String
  | [] => []
  | s :: rest => insertStrSorted s (sortStrings rest)

/-- `format!("_:h{:08}", i)`. -/
def canonicalBnodeLabel (i : Nat) : String :=
  let s := toString i
  "_:h" ++ String.mk (List.replicate (8 - s.length) '0') ++ s

/-- The renumbering map from sorted blank-node ids to canonical labels. -/
def bnodeMapping (triples : List JValue) : List (String × String) :=
  (sortStrings (collectBnodes triples [])).enum.map
    (fun p => (p.2, canonicalBnodeLabel p.1))

/-- Relabel the subject and the string object of one triple. -/
def relabelTriple (mapping : List (String × String)) (t : JValue) : JValue :=
  match t with
  | .obj kvs =>
      let kvs1 :=
        match lookupKey kvs "subject" with
        | some (.str s) =>
            (match lookupStr mapping s with
             | some m => insertKey kvs "subject" (.str m)
             | none => kvs)
        | _ => kvs
      let kvs2 :=
        match lookupKey kvs1 "object" with
        | some (.str s) =>
            (match lookupStr mapping s with
             | some m => insertKey kvs1 "object" (.str m)
             | none => kvs1)
        | _ => kvs1
      .obj kvs2
  | t' => t'

/-- `normalize_blank_nodes_fast`. -/
def normalizeBlankNodesFast (triples : List JValue) : List JValue :=
  triples.map (relabelTriple (bnodeMapping triples))

/-- `document_to_triples_fast`, with the UUID supply made explicit. -/
def documentToTriplesFast (document : JValue) (supply : List String) : List JValue :=
  let r := extractTriplesNodeFast document none ⟨[], supply, []⟩
  normalizeBlankNodesFast r.2.triples

/-! ## Semantic diff (`compute_semantic_diff`), claim C7 -/

/-- Membership in a triple list under the document equality used by the
triple sets (`AHashSet<&Value>` uses `Value`'s map-order-insensitive
equality). -/
def memTriple (t : JValue) (ts : List JValue) : Bool :=
  ts.any (fun u => valuesEqual t u)

/-- First-occurrence deduplication, the set view of an extracted triple
list. -/
def dedupTriplesGo : List JValue → List JValue → List JValue
  | [], _ => []
  | t :: rest, seen =>
      if memTriple t seen then dedupTriplesGo rest seen
      else t :: dedupTriplesGo rest (t :: seen)

def dedupTriples (ts : List JValue) : List JValue :=
  dedupTriplesGo ts []

/-- The claim-relevant part of `compute_semantic_diff`: added and removed
triple sets and the `semantic_equivalence` metadata flag (context and
node-grouping analyses are separate outputs not involved in claim C7).
The two UUID supplies model the two independent
`document_to_triples_fast` calls. -/
structure SemanticDiffResult where
  addedTriples : List JValue
  removedTriples : List JValue
  semanticEquivalence : Bool

def computeSemanticDiff (old new : JValue) (supplyOld supplyNew : List String) :
    SemanticDiffResult :=
  let oldT := documentToTriplesFast old supplyOld
  let newT := documentToTriplesFast new supplyNew
  let added := (dedupTriples newT).filter (fun t => !(memTriple t oldT))
  let removed := (dedupTriples oldT).filter (fun t => !(memTriple t newT))
  { addedTriples := added
    removedTriples := removed
    semanticEquivalence := added.isEmpty && removed.isEmpty }

theorem mem_dedupTriplesGo : ∀ (ts seen : List JValue) (t : JValue),
    t ∈ dedupTriplesGo ts seen → t ∈ ts
  | [], _, _, h => absurd h (List.not_mem_nil _)
  | u :: rest, seen, t, h => by
      by_cases hm : memTriple u seen = true
      · simp only [dedupTriplesGo, hm, if_true] at h
        exact List.mem_cons_of_mem u (mem_dedupTriplesGo rest seen t h)
      · simp only [dedupTriplesGo, hm, Bool.false_eq_true, if_false,
          List.mem_cons] at h
        rcases h with h | h
        · exact h ▸ List.mem_cons_self u rest
        · exact List.mem_cons_of_mem u (mem_dedupTriplesGo rest (u :: seen) t h)

theorem filter_not_mem_eq_nil (ts others : List JValue)
    (h : ts.all (fun t => memTriple t others) = true) :
    (dedupTriples ts).filter (fun t => !(memTriple t others)) = [] := by
  rw [List.filter_eq_nil_iff]
  intro t ht
  have hmem : t ∈ ts := mem_dedupTriplesGo ts [] t ht
  have := (List.all_eq_true.1 h) t hmem
  simp [this]

/-- C7: whenever the two documents' extracted and canonicalized triple
lists are equal as sets, `diff_semantic` reports empty `added_triples`
and `removed_triples` and `semantic_equivalence = true`, regardless of
the documents' JSON shapes. -/
theorem semantic_equivalence_of_equal_triple_sets (old new : JValue)
    (supplyOld supplyNew : List String)
    (h1 : (documentToTriplesFast new supplyNew).all
        (fun t => memTriple t (documentToTriplesFast old supplyOld)) = true)
    (h2 : (documentToTriplesFast old supplyOld).all
        (fun t => memTriple t (documentToTriplesFast new supplyNew)) = true) :
    (computeSemanticDiff old new supplyOld supplyNew).addedTriples = []
    ∧ (computeSemanticDiff old new supplyOld supplyNew).removedTriples = []
    ∧ (computeSemanticDiff old new supplyOld supplyNew).semanticEquivalence = true := by
  have ha := filter_not_mem_eq_nil _ _ h1
  have hr := filter_not_mem_eq_nil _ _ h2
  refine ⟨ha, hr, ?_⟩
  simp [computeSemanticDiff, ha, hr]

/-- Reordered-key pair used to witness claim C7 (same logical content,
different JSON shapes). -/
def semEqDocA : JValue :=
  .obj [("@id", .str "http://example.org/x"), ("b", .num 2), ("a", .num 1)]

def semEqDocB : JValue :=
  .obj [("@id", .str "http://example.org/x"), ("a", .num 1), ("b", .num 2)]

/-- Witness for `semantic_equivalence_of_equal_triple_sets`: two documents
differing only in object-key order extract equal triple sets and their
semantic diff is empty. -/
theorem semantic_equivalence_witness :
    ((documentToTriplesFast semEqDocB []).all
        (fun t => memTriple t (documentToTriplesFast semEqDocA [])) = true
      ∧ (documentToTriplesFast semEqDocA []).all
        (fun t => memTriple t (documentToTriplesFast semEqDocB [])) = true)
    ∧ ((computeSemanticDiff semEqDocA semEqDocB [] []).addedTriples = []
      ∧ (computeSemanticDiff semEqDocA semEqDocB [] []).removedTriples = []
      ∧ (computeSemanticDiff semEqDocA semEqDocB [] []).semanticEquivalence = true) :=
  ⟨⟨by decide, by decide⟩,
    semantic_equivalence_of_equal_triple_sets semEqDocA semEqDocB [] []
      (by decide) (by decide)⟩

/-- A document with three anonymous subjects (the root and the two nested
objects), each of which draws a random UUID in
`extract_triples_node_fast`. -/
def bnodeNondetDoc : JValue :=
  .obj [("a", .obj [("x", .num 1)]), ("b", .obj [("y", .num 2)])]

/-- C2 (refutation of the claim on the code as written): the canonical
blank-node labels depend on the randomly drawn UUIDs, not on triple-set
content alone. Two extraction runs over the same document whose UUID
draws sort differently assign different `_:h%08d` labels: with draws
`0aaa, 0bbb, 0ccc` the root is labelled `_:h00000000`, with draws
`0ccc, 0bbb, 0aaa` the root is labelled `_:h00000002`, so the normalized
triple lists differ. The in-code comment claims the bnode id is
deterministic, but `uuid::Uuid::new_v4` is a random draw. -/
theorem blank_node_label_nondeterminism :
    documentToTriplesFast bnodeNondetDoc ["0aaa", "0bbb", "0ccc"]
      ≠ documentToTriplesFast bnodeNondetDoc ["0ccc", "0bbb", "0aaa"] :=
  fun h =>
    (@jvalue_ne_of_valuesEqual
      (.arr (documentToTriplesFast bnodeNondetDoc ["0aaa", "0bbb", "0ccc"]))
      (.arr (documentToTriplesFast bnodeNondetDoc ["0ccc", "0bbb", "0aaa"]))
      (by decide) (by decide)) (congrArg JValue.arr h)

/-! ## Structural diff (`compute_structural_diff`), claims C1, C3, C6, C9 -/

/-- `array_diff` option values (`ArrayDiffAlgorithm`); like the source's
`diff_arrays_optimized`, the diff consults only `include_moves`. -/
inductive ArrayDiffAlgorithm where
  | lcs : ArrayDiffAlgorithm
  | simple : ArrayDiffAlgorithm
  | myers : ArrayDiffAlgorithm

/-- `DiffOptions` with the defaults of `parse_diff_options`. -/
structure DiffOptions where
  includeMoves : Bool
  arrayDiffAlgorithm : ArrayDiffAlgorithm
  textDiff : Bool
  textDiffThreshold : Nat
  objectHashDepth : Nat

def defaultDiffOptions : DiffOptions :=
  { includeMoves := true, arrayDiffAlgorithm := .lcs, textDiff := true,
    textDiffThreshold := 60, objectHashDepth := 3 }

/-- `str::len()`: the UTF-8 byte length. -/
def utf8Len (s : String) : Nat :=
  s.data.foldl (fun n c => n + c.utf8Size) 0

mutual
/-- `compute_value_hash_fast`, modelled as an injective structural
encoding into `String` (a collision-free idealisation of the 64-bit
`ahash`); like the source, objects are hashed in iteration order. -/
def hashFast : JValue → String
  | .null => "0"
  | .bool b => "1:" ++ toString b
  | .num n => "2:" ++ toString n
  | .str s => "3:" ++ s
  | .arr xs => "4:" ++ toString xs.length ++ ":" ++ hashFastList xs
  | .obj kvs => "5:" ++ toString kvs.length ++ ":" ++ hashFastObj kvs

def hashFastList : List JValue → String
  | [] => ""
  | x :: rest => "(" ++ hashFast x ++ ")" ++ hashFastList rest

def hashFastObj : List (String × JValue) → String
  | [] => ""
  | (k, v) :: rest => "(" ++ k ++ "=" ++ hashFast v ++ ")" ++ hashFastObj rest
end

/-- `value_to_cache_key`: the (lossy) key of the thread-local hash cache;
string slicing is modelled at character granularity (the inputs under
study are ASCII). -/
def valueToCacheKey (value : JValue) : String :=
  match value with
  | .null => "null"
  | .bool b => "bool:" ++ toString b
  | .num n => "num:" ++ toString n
  | .str s =>
      if 100 < utf8Len s then
        "str:" ++ toString (utf8Len s) ++ ":" ++ String.mk (s.data.take 50)
      else "str:" ++ s
  | .arr xs => "arr:" ++ toString xs.length
  | .obj kvs => "obj:" ++ toString kvs.length ++ ":" ++ (sortStrings (kvs.map (·.1))).headD ""

/-- The threaded `HASH_CACHE` state. -/
def HashCache : Type := List (String × String)

/-- `compute_value_hash_cached`. -/
def computeValueHashCached (value : JValue) (cache : HashCache) : String × HashCache :=
  let key := valueToCacheKey value
  match lookupStr cache key with
  | some h => (h, cache)
  | none =>
      let h := hashFast value
      (h, insertStr cache key h)

/-- `build_value_hash_map`. -/
def buildValueHashMap : List JValue → HashCache → List String × HashCache
  | [], cache => ([], cache)
  | v :: rest, cache =>
      let r := computeValueHashCached v cache
      let r2 := buildValueHashMap rest r.2
      (r.1 :: r2.1, r2.2)

/-- Length of the common prefix of two character lists. -/
def commonPrefixLen : List Char → List Char → Nat
  | a :: as_, b :: bs => if a == b then 1 + commonPrefixLen as_ bs else 0
  | _, _ => 0

/-- Modelled from the spec: the character-level Myers diff comes from the
external `similar` crate, which is not part of this repository; per the
spec it is "an ordered list of delete/insert/replace operations with
half-open character ranges". It is modelled as the single minimal edit
region obtained by trimming the common prefix and suffix, which
coincides with the Myers ops for the single-region edits of the claims
(in particular one-character substitutions). -/
def myersCharOps (old new : List Char) : List JValue :=
  let p := commonPrefixLen old new
  let oldRest := old.drop p
  let newRest := new.drop p
  let s := commonPrefixLen oldRest.reverse newRest.reverse
  let om := oldRest.take (oldRest.length - s)
  let nm := newRest.take (newRest.length - s)
  if om.isEmpty && nm.isEmpty then []
  else if om.isEmpty then
    [.obj [("op", .str "insert"),
           ("range", .arr [.num (Int.ofNat p), .num (Int.ofNat (p + nm.length))]),
           ("text", .str (String.mk nm))]]
  else if nm.isEmpty then
    [.obj [("op", .str "delete"),
           ("range", .arr [.num (Int.ofNat p), .num (Int.ofNat (p + om.length))]),
           ("text", .str (String.mk om))]]
  else
    [.obj [("op", .str "replace"),
           ("old_range", .arr [.num (Int.ofNat p), .num (Int.ofNat (p + om.length))]),
           ("new_range", .arr [.num (Int.ofNat p), .num (Int.ofNat (p + nm.length))]),
           ("old_text", .str (String.mk om)),
           ("new_text", .str (String.mk nm))]]

/-- `diff_text_simd`: the `[{"text_diff": [...]}, 0, 2]` wrapper. -/
def diffTextSimd (oldText newText : String) : JValue :=
  .arr [.obj [("text_diff", .arr (myersCharOps oldText.data newText.data))],
        .num 0, .num 2]

/-- `sub_diff.is_object() && sub_diff.as_object().unwrap().is_empty()`. -/
def isEmptyObjDelta : JValue → Bool
  | .obj [] => true
  | _ => false

/-- `find` of the move-detection loop: the first unconsumed old index
with an equal hash. -/
def findOldMatch : List String → List Bool → String → Nat → Option Nat
  | [], _, _, _ => none
  | oh :: rest, pO, h, idx =>
      if !(pO.getD idx false) && oh == h then some idx
      else findOldMatch rest pO h (idx + 1)

/-- The move-detection scan of `diff_arrays_with_moves_simd` (first
loop): emit `["", from, 3]` markers keyed `_<newIdx>` and mark both
sides consumed. -/
def moveScan : List String → Nat → List String → List Bool → List Bool →
    List (String × JValue) → List (String × JValue) × List Bool × List Bool
  | [], _, _, pO, pN, acc => (acc, pO, pN)
  | h :: rest, newIdx, oldHs, pO, pN, acc =>
      if pN.getD newIdx false then moveScan rest (newIdx + 1) oldHs pO pN acc
      else
        match findOldMatch oldHs pO h 0 with
        | some oldIdx =>
            let acc' :=
              if oldIdx ≠ newIdx then
                insertKey acc ("_" ++ toString newIdx)
                  (.arr [.str "", .num (Int.ofNat oldIdx), .num 3])
              else acc
            moveScan rest (newIdx + 1) oldHs (pO.set oldIdx true) (pN.set newIdx true) acc'
        | none => moveScan rest (newIdx + 1) oldHs pO pN acc

/-- `[new_value]` additions for new-side-only keys
(`diff_objects_optimized`, `(None, Some)` arm). -/
def diffObjNewEntries : List (String × JValue) → List (String × JValue) →
    List (String × JValue)
  | [], _ => []
  | (k, vb) :: rest, oFull =>
      match lookupKey oFull k with
      | some _ => diffObjNewEntries rest oFull
      | none => (k, .arr [vb]) :: diffObjNewEntries rest oFull

/-- Trailing `[new]` additions of the simple array diff (indices only in
the new array). -/
def trailingAddsSimple : List JValue → Nat → List (String × JValue)
  | [], _ => []
  | v :: rest, i => ("_" ++ toString i, .arr [v]) :: trailingAddsSimple rest (i + 1)

/-- Trailing additions of the move-aware array diff (unconsumed new
indices past the old length). -/
def trailingAddsMoves : List JValue → Nat → List Bool → List (String × JValue) →
    List (String × JValue)
  | [], _, _, acc => acc
  | v :: rest, i, pN, acc =>
      if !(pN.getD i false) then
        trailingAddsMoves rest (i + 1) pN (insertKey acc ("_" ++ toString i) (.arr [v]))
      else trailingAddsMoves rest (i + 1) pN acc

mutual
/-- `compute_structural_diff`, with the thread-local hash cache threaded
explicitly (the cache is consulted only on the move-aware array path,
exactly as in the source). -/
def computeStructuralDiff (old new : JValue) (opts : DiffOptions) (cache : HashCache) :
    JValue × HashCache :=
  if valuesEqual old new then (.obj [], cache)
  else
    match old, new with
    | .obj o, .obj n =>
        let r := diffObjOldEntries o n opts cache
        (.obj ((diffObjNewEntries n o).foldl (fun acc e => insertKey acc e.1 e.2) r.1), r.2)
    | .arr o, .arr n =>
        if opts.includeMoves then
          let r1 := buildValueHashMap o cache
          let r2 := buildValueHashMap n r1.2
          let scan := moveScan r2.1 0 r1.1 (List.replicate o.length false)
            (List.replicate n.length false) []
          movesRest o 0 n scan.2.1 scan.2.2 opts r2.2 scan.1
        else
          let r := diffArrSimpleGo o 0 n opts cache
          (.obj r.1, r.2)
    | .str a, .str b =>
        if opts.textDiff && opts.textDiffThreshold < utf8Len a then
          (diffTextSimd a b, cache)
        else (.arr [.str a, .str b], cache)
    | o, n => (.arr [o, n], cache)
  termination_by structural old

/-- `diff_objects_optimized` for old-side keys: recursive sub-diffs for
changed keys, `[old, 0, 0]` deletions for removed keys. -/
def diffObjOldEntries : List (String × JValue) → List (String × JValue) →
    DiffOptions → HashCache → List (String × JValue) × HashCache
  | [], _, _, cache => ([], cache)
  | (k, va) :: rest, nFull, opts, cache =>
      match lookupKey nFull k with
      | some vb =>
          if valuesEqual va vb then diffObjOldEntries rest nFull opts cache
          else
            let r := computeStructuralDiff va vb opts cache
            let r2 := diffObjOldEntries rest nFull opts r.2
            if isEmptyObjDelta r.1 then (r2.1, r2.2)
            else ((k, r.1) :: r2.1, r2.2)
      | none =>
          let r2 := diffObjOldEntries rest nFull opts cache
          ((k, .arr [va, .num 0, .num 0]) :: r2.1, r2.2)
  termination_by structural a _b _c _d => a

/-- `diff_arrays_simple_simd`: positional diff over the old array with
index counter, then trailing additions. -/
def diffArrSimpleGo : List JValue → Nat → List JValue → DiffOptions → HashCache →
    List (String × JValue) × HashCache
  | [], i, nFull, _, cache => (trailingAddsSimple (nFull.drop i) i, cache)
  | o :: os, i, nFull, opts, cache =>
      match nFull[i]? with
      | some nv =>
          if valuesEqual o nv then diffArrSimpleGo os (i + 1) nFull opts cache
          else
            let r := computeStructuralDiff o nv opts cache
            let r2 := diffArrSimpleGo os (i + 1) nFull opts r.2
            (("_" ++ toString i, r.1) :: r2.1, r2.2)
      | none =>
          let r2 := diffArrSimpleGo os (i + 1) nFull opts cache
          (("_" ++ toString i, .arr [o, .num 0, .num 0]) :: r2.1, r2.2)
  termination_by structural a _b _c _d _e => a

/-- Second loop of `diff_arrays_with_moves_simd`: positional
changes/deletions/additions over the indices left unconsumed by the move
scan. -/
def movesRest : List JValue → Nat → List JValue → List Bool → List Bool →
    DiffOptions → HashCache → List (String × JValue) → JValue × HashCache
  | [], i, nFull, _pO, pN, _opts, cache, acc =>
      (.obj (trailingAddsMoves (nFull.drop i) i pN acc), cache)
  | o :: os, i, nFull, pO, pN, opts, cache, acc =>
      if i < nFull.length && !(pO.getD i false) && !(pN.getD i false) then
        if valuesEqual o (nFull.getD i .null) then
          movesRest os (i + 1) nFull pO pN opts cache acc
        else
          let r := computeStructuralDiff o (nFull.getD i .null) opts cache
          movesRest os (i + 1) nFull pO pN opts r.2
            (insertKey acc ("_" ++ toString i) r.1)
      else if !(pO.getD i false) then
        movesRest os (i + 1) nFull pO pN opts cache
          (insertKey acc ("_" ++ toString i) (.arr [o, .num 0, .num 0]))
      else if i < nFull.length && !(pN.getD i false) then
        movesRest os (i + 1) nFull pO pN opts cache
          (insertKey acc ("_" ++ toString i) (.arr [nFull.getD i .null]))
      else movesRest os (i + 1) nFull pO pN opts cache acc
  termination_by structural a _b _c _d _e _f _g _h => a
end

mutual
/-- Specification-side comparator for claim C3: the same structural diff
with the hash cache bypassed, every element hash computed directly by
`hashFast` (the spec requires bypassing the cache not to change any
result). -/
def computeStructuralDiffBypass (old new : JValue) (opts : DiffOptions) : JValue :=
  if valuesEqual old new then .obj []
  else
    match old, new with
    | .obj o, .obj n =>
        let r := diffObjOldEntriesBypass o n opts
        .obj ((diffObjNewEntries n o).foldl (fun acc e => insertKey acc e.1 e.2) r)
    | .arr o, .arr n =>
        if opts.includeMoves then
          let oldHs := o.map hashFast
          let newHs := n.map hashFast
          let scan := moveScan newHs 0 oldHs (List.replicate o.length false)
            (List.replicate n.length false) []
          movesRestBypass o 0 n scan.2.1 scan.2.2 opts scan.1
        else .obj (diffArrSimpleGoBypass o 0 n opts)
    | .str a, .str b =>
        if opts.textDiff && opts.textDiffThreshold < utf8Len a then
          diffTextSimd a b
        else .arr [.str a, .str b]
    | o, n => .arr [o, n]
  termination_by structural old

def diffObjOldEntriesBypass : List (String × JValue) → List (String × JValue) →
    DiffOptions → List (String × JValue)
  | [], _, _ => []
  | (k, va) :: rest, nFull, opts =>
      match lookupKey nFull k with
      | some vb =>
          if valuesEqual va vb then diffObjOldEntriesBypass rest nFull opts
          else
            let sub := computeStructuralDiffBypass va vb opts
            let r2 := diffObjOldEntriesBypass rest nFull opts
            if isEmptyObjDelta sub then r2 else (k, sub) :: r2
      | none =>
          (k, .arr [va, .num 0, .num 0]) :: diffObjOldEntriesBypass rest nFull opts
  termination_by structural a _b _c => a

def diffArrSimpleGoBypass : List JValue → Nat → List JValue → DiffOptions →
    List (String × JValue)
  | [], i, nFull, _ => trailingAddsSimple (nFull.drop i) i
  | o :: os, i, nFull, opts =>
      match nFull[i]? with
      | some nv =>
          if valuesEqual o nv then diffArrSimpleGoBypass os (i + 1) nFull opts
          else
            ("_" ++ toString i, computeStructuralDiffBypass o nv opts)
              :: diffArrSimpleGoBypass os (i + 1) nFull opts
      | none =>
          ("_" ++ toString i, .arr [o, .num 0, .num 0])
            :: diffArrSimpleGoBypass os (i + 1) nFull opts
  termination_by structural a _b _c _d => a

def movesRestBypass : List JValue → Nat → List JValue → List Bool → List Bool →
    DiffOptions → List (String × JValue) → JValue
  | [], i, nFull, _pO, pN, _opts, acc => .obj (trailingAddsMoves (nFull.drop i) i pN acc)
  | o :: os, i, nFull, pO, pN, opts, acc =>
      if i < nFull.length && !(pO.getD i false) && !(pN.getD i false) then
        if valuesEqual o (nFull.getD i .null) then
          movesRestBypass os (i + 1) nFull pO pN opts acc
        else
          movesRestBypass os (i + 1) nFull pO pN opts
            (insertKey acc ("_" ++ toString i)
              (computeStructuralDiffBypass o (nFull.getD i .null) opts))
      else if !(pO.getD i false) then
        movesRestBypass os (i + 1) nFull pO pN opts
          (insertKey acc ("_" ++ toString i) (.arr [o, .num 0, .num 0]))
      else if i < nFull.length && !(pN.getD i false) then
        movesRestBypass os (i + 1) nFull pO pN opts
          (insertKey acc ("_" ++ toString i) (.arr [nFull.getD i .null]))
      else movesRestBypass os (i + 1) nFull pO pN opts acc
  termination_by structural a _b _c _d _e _f _g => a
end

/-! ## Structural patch application (`apply_structural_patch`) -/

/-- The operations collected by `apply_array_delta` before application. -/
structure ArrayOps where
  deletes : List Nat
  moves : List (Nat × Nat)
  inserts : List (Nat × JValue)
  changes : List (Nat × JValue)

def emptyArrayOps : ArrayOps := ⟨[], [], [], []⟩

/-- `key.parse::<usize>()`. -/
def parseNatGo : List Char → Nat → Option Nat
  | [], acc => some acc
  | c :: rest, acc =>
      if '0' ≤ c && c ≤ '9' then parseNatGo rest (acc * 10 + (c.toNat - '0'.toNat))
      else none

def parseNatChars (cs : List Char) : Option Nat :=
  if cs.isEmpty then none else parseNatGo cs 0

/-- Descending insertion (`deletes.sort_unstable_by(|a, b| b.cmp(a))`). -/
def insertNatDesc (n : Nat) : List Nat → List Nat
  | [] => [n]
  | m :: rest => if m < n then n :: m :: rest else m :: insertNatDesc n rest

def sortNatDesc : List Nat → List Nat
  | [] => []
  | n :: rest => insertNatDesc n (sortNatDesc rest)

/-- Ascending insertion by first component (`sort_unstable_by` on the
index). -/
def insertPairAsc {β : Type} (e : Nat × β) : List (Nat × β) → List (Nat × β)
  | [] => [e]
  | f :: rest => if e.1 < f.1 then e :: f :: rest else f :: insertPairAsc e rest

def sortPairsAsc {β : Type} : List (Nat × β) → List (Nat × β)
  | [] => []
  | e :: rest => insertPairAsc e (sortPairsAsc rest)

/-- The application phases of `apply_array_delta`: deletes in descending
index order, then moves by ascending destination, then changes, then
inserts in ascending index order. -/
def applyArrayDeltaOps (existing : List JValue) (ops : ArrayOps) : JValue :=
  let r1 := (sortNatDesc ops.deletes).foldl
      (fun res idx => if idx < res.length then res.eraseIdx idx else res) existing
  let r2 := (sortPairsAsc ops.moves).foldl
      (fun res mv =>
        if mv.2 < res.length then
          let item := res.getD mv.2 .null
          let res' := res.eraseIdx mv.2
          let insPos := if mv.1 ≤ res'.length then mv.1 else res'.length
          insertAt res' insPos item
        else res) r1
  let r3 := (sortPairsAsc ops.changes).foldl
      (fun res ch => if ch.1 < res.length then res.set ch.1 ch.2 else res) r2
  let r4 := (sortPairsAsc ops.inserts).foldl
      (fun res ins =>
        let insPos := if ins.1 ≤ res.length then ins.1 else res.length
        insertAt res insPos ins.2) r3
  .arr r4

/-- `count_chars` / `slice_by_char_range`. -/
def sliceByCharRange (s : String) (startC endC : Nat) : String :=
  if endC ≤ startC then "" else String.mk ((s.data.drop startC).take (endC - startC))

/-- `apply_text_diff_ops`: splice the recorded operations into the old
text by character offsets. -/
def applyTextDiffOps (oldText : String) (ops : List JValue) : String :=
  let r := ops.foldl
    (fun (acc : String × Nat) op =>
      match getStrField op "op" with
      | "delete" =>
          (match getField op "range" with
           | some (.arr [sv, ev]) =>
               let s := (asU64 sv).getD 0
               let e := (asU64 ev).getD 0
               (acc.1 ++ sliceByCharRange oldText acc.2 s, e)
           | _ => acc)
      | "replace" =>
          (match getField op "old_range" with
           | some (.arr [sv, ev]) =>
               let s := (asU64 sv).getD 0
               let e := (asU64 ev).getD 0
               (acc.1 ++ sliceByCharRange oldText acc.2 s ++ getStrField op "new_text", e)
           | _ => acc)
      | "insert" =>
          (match getField op "text" with
           | some (.str ins) => (acc.1 ++ ins, acc.2)
           | _ => acc)
      | _ => acc) ("", 0)
  r.1 ++ sliceByCharRange oldText r.2 oldText.data.length

/-- `apply_array_patch`: the text-diff wrapper `[…, 0, 2]`, else
addition/deletion/change by shape. -/
def applyArrayPatch (document : JValue) (patchArr : List JValue) : JValue :=
  match patchArr with
  | [first, .num 0, .num 2] =>
      (match document with
       | .str oldText =>
           (match getField first "text_diff" with
            | some (.arr ops) => .str (applyTextDiffOps oldText ops)
            | _ => document)
       | _ => document)
  | [newVal] => newVal
  | [_, .num 0, .num 0] => .null
  | [_, newVal] => newVal
  | _ => document

mutual
/-- `apply_structural_patch`. -/
def applyStructuralPatch (document patch : JValue) : JValue :=
  match patch with
  | .obj patchObj =>
      (match document with
       | .obj docKvs => .obj (applyObjEntries docKvs patchObj)
       | .arr xs => applyArrayDeltaOps xs (collectArrayOps xs patchObj emptyArrayOps)
       | other => other)
  | .arr patchArr => applyArrayPatch document patchArr
  | other => other
  termination_by structural patch

/-- The key loop of `apply_object_patch` over the (mutating) result
object. The nested `apply_structural_patch` call on an object-shaped
patch value is inlined by document constructor so that the recursion
stays structural in the patch. -/
def applyObjEntries : List (String × JValue) → List (String × JValue) →
    List (String × JValue)
  | resultObj, [] => resultObj
  | resultObj, (key, patchVal) :: rest =>
      let resultObj' :=
        match patchVal with
        | .obj pObj =>
            (match lookupKey resultObj key with
             | some (.arr existingArr) =>
                 insertKey resultObj key
                   (applyArrayDeltaOps existingArr
                     (collectArrayOps existingArr pObj emptyArrayOps))
             | some (.obj existingKvs) =>
                 if strStartsWith key "_" then resultObj
                 else insertKey resultObj key (.obj (applyObjEntries existingKvs pObj))
             | some existing =>
                 if strStartsWith key "_" then resultObj
                 else insertKey resultObj key existing
             | none =>
                 if strStartsWith key "_" then resultObj
                 else insertKey resultObj key (.obj pObj))
        | .arr pArr =>
            if strStartsWith key "_" then resultObj
            else
              (match pArr with
               | [_, .num 0, .num 0] => removeKey resultObj key
               | [newV] => insertKey resultObj key newV
               | [_, newV] => insertKey resultObj key newV
               | _ =>
                   match lookupKey resultObj key with
                   | some existing => insertKey resultObj key (applyArrayPatch existing pArr)
                   | none => insertKey resultObj key (.arr pArr))
        | otherPatch =>
            if strStartsWith key "_" then resultObj
            else insertKey resultObj key otherPatch
      applyObjEntries resultObj' rest
  termination_by structural _a b => b

/-- The collection loop of `apply_array_delta`. -/
def collectArrayOps (existing : List JValue) : List (String × JValue) → ArrayOps → ArrayOps
  | [], acc => acc
  | (key, sub) :: rest, acc =>
      let acc' :=
        if !(strStartsWith key "_") then
          match parseNatChars key.data, sub with
          | some idx, .arr [v] => { acc with inserts := acc.inserts ++ [(idx, v)] }
          | _, _ => acc
        else
          match parseNatChars (key.data.drop 1) with
          | some idx =>
              (match sub with
               | .arr [_, .num 0, .num 0] => { acc with deletes := acc.deletes ++ [idx] }
               | .arr [.str "", fromV, .num 3] =>
                   (match asU64 fromV with
                    | some fromIdx => { acc with moves := acc.moves ++ [(idx, fromIdx)] }
                    | none => acc)
               | .arr [v] => { acc with inserts := acc.inserts ++ [(idx, v)] }
               | .arr [_, newV] => { acc with changes := acc.changes ++ [(idx, newV)] }
               | other =>
                   match existing[idx]? with
                   | some oldVal =>
                       { acc with changes :=
                          acc.changes ++ [(idx, applyStructuralPatch oldVal other)] }
                   | none => acc)
          | none => acc
      collectArrayOps existing rest acc'
  termination_by structural a _b => a
end

/-- `apply_array_delta`. -/
def applyArrayDelta (existing : List JValue) (deltaObj : List (String × JValue)) : JValue :=
  applyArrayDeltaOps existing (collectArrayOps existing deltaObj emptyArrayOps)

/-- `parse_diff_options` result for `include_moves = "false"`. -/
def noMovesDiffOptions : DiffOptions :=
  { defaultDiffOptions with includeMoves := false }

/-- The pair `[[1]]` / `[[2]]`: both elements produce the same lossy
cache key `arr:1`, so the hash cache conflates them. -/
def cacheCollisionOld : JValue := .arr [.arr [.num 1]]

def cacheCollisionNew : JValue := .arr [.arr [.num 2]]

/-- C1 (refutation of the claim on the code as written): with a fresh
thread-local hash cache, `diff_structural([[1]], [[2]])` returns the
empty delta, because both elements share the lossy cache key `arr:1` and
the new side therefore reuses the old element's hash; applying the empty
delta to `[[1]]` returns `[[1]]`, which is not deep-equal to `[[2]]`,
although no ShapeMismatch fallback is involved. -/
theorem structural_round_trip_failure :
    valuesEqual cacheCollisionOld cacheCollisionNew = false
    ∧ (computeStructuralDiff cacheCollisionOld cacheCollisionNew defaultDiffOptions []).1
        = .obj []
    ∧ applyStructuralPatch cacheCollisionOld
        (computeStructuralDiff cacheCollisionOld cacheCollisionNew defaultDiffOptions []).1
      = cacheCollisionOld
    ∧ valuesEqual
        (applyStructuralPatch cacheCollisionOld
          (computeStructuralDiff cacheCollisionOld cacheCollisionNew defaultDiffOptions []).1)
        cacheCollisionNew = false :=
  ⟨by decide, rfl, rfl, by decide⟩

/-- C3 (refutation of the claim on the code as written): on
`[[1]]` vs `[[2]]`, running the structural diff with the hash cache in
use (even freshly evicted) yields the empty delta, while running it with
hashing bypassed yields the nested change `{_0: {_0: [1, 2]}}` — the
cache is not a pure performance optimization. -/
theorem structural_diff_cache_dependence :
    (computeStructuralDiff cacheCollisionOld cacheCollisionNew defaultDiffOptions []).1
      ≠ computeStructuralDiffBypass cacheCollisionOld cacheCollisionNew defaultDiffOptions
    ∧ (computeStructuralDiff cacheCollisionOld cacheCollisionNew defaultDiffOptions []).1
        = .obj []
    ∧ computeStructuralDiffBypass cacheCollisionOld cacheCollisionNew defaultDiffOptions
        = .obj [("_0", .obj [("_0", .arr [.num 1, .num 2])])] :=
  ⟨jvalue_ne_of_valuesEqual (by decide) (by decide), rfl, rfl⟩

/-- C9: on old `["a","b","c"]` and new `["c","a","b"]`, the structural
diff with moves enabled emits exactly one move marker per element and no
addition or deletion markers; with moves disabled it replaces every
position, pairing old and new values per index. -/
theorem move_detection_scenario :
    (computeStructuralDiff (.arr [.str "a", .str "b", .str "c"])
        (.arr [.str "c", .str "a", .str "b"]) defaultDiffOptions []).1
      = .obj [("_0", .arr [.str "", .num 2, .num 3]),
              ("_1", .arr [.str "", .num 0, .num 3]),
              ("_2", .arr [.str "", .num 1, .num 3])]
    ∧ (computeStructuralDiff (.arr [.str "a", .str "b", .str "c"])
        (.arr [.str "c", .str "a", .str "b"]) noMovesDiffOptions []).1
      = .obj [("_0", .arr [.str "a", .str "c"]),
              ("_1", .arr [.str "b", .str "a"]),
              ("_2", .arr [.str "c", .str "b"])] :=
  ⟨rfl, rfl⟩

/-- Shape test for the `[{"text_diff": […]}, 0, 2]` wrapper. -/
def isTextDiffWrapper : JValue → Bool
  | .arr [.obj kvs, .num 0, .num 2] => (lookupKey kvs "text_diff").isSome
  | _ => false

/-- A 61-byte string: above the default threshold on the old side only. -/
def longOld61 : String := String.mk (List.replicate 61 'a')

/-- A 100-character string and its single-character change at index 30. -/
def oldHundred : String := String.mk (List.replicate 100 'a')

def newHundred : String := String.mk (List.replicate 30 'a' ++ 'b' :: List.replicate 69 'a')

/-- C6 (counterexample to the claim as stated): the new string `"b"` is
far below the threshold, so the claim requires a whole-value
`[old, new]` replacement, but the code checks only the old string's
length and produces a `text_diff` wrapper. -/
theorem text_diff_threshold_counterexample :
    utf8Len "b" ≤ 60
    ∧ (computeStructuralDiff (.str longOld61) (.str "b") defaultDiffOptions []).1
        ≠ .arr [.str longOld61, .str "b"]
    ∧ isTextDiffWrapper
        (computeStructuralDiff (.str longOld61) (.str "b") defaultDiffOptions []).1 = true :=
  ⟨by decide, jvalue_ne_of_valuesEqual (by decide) (by decide), by decide⟩

/-- C6 (amended): for unequal strings under default options, the diff is
an embedded `text_diff` wrapper exactly when the OLD string's byte
length exceeds `text_diff_threshold` (the new string's length is not
consulted); otherwise it is the whole-value `[old, new]` replacement.
For the single-character change at index 30 of a 100-character string
the wrapper holds exactly one `replace` op spanning exactly the changed
character range `[30, 31)`. -/
theorem text_diff_threshold_old_side (s t : String) (h : s ≠ t) :
    (isTextDiffWrapper (computeStructuralDiff (.str s) (.str t) defaultDiffOptions []).1 = true
      ↔ 60 < utf8Len s)
    ∧ (utf8Len s ≤ 60 →
        (computeStructuralDiff (.str s) (.str t) defaultDiffOptions []).1
          = .arr [.str s, .str t])
    ∧ myersCharOps oldHundred.data newHundred.data
        = [.obj [("op", .str "replace"),
                 ("old_range", .arr [.num 30, .num 31]),
                 ("new_range", .arr [.num 30, .num 31]),
                 ("old_text", .str "a"), ("new_text", .str "b")]]
    ∧ (computeStructuralDiff (.str oldHundred) (.str newHundred) defaultDiffOptions []).1
        = diffTextSimd oldHundred newHundred := by
  have hne : valuesEqual (.str s) (.str t) = false := by
    simp only [valuesEqual]
    exact beq_eq_false_iff_ne.mpr h
  refine ⟨?_, ?_, by rfl, rfl⟩
  · by_cases hth : 60 < utf8Len s
    · simp [computeStructuralDiff, hne, defaultDiffOptions, hth, diffTextSimd,
        isTextDiffWrapper, lookupKey]
    · simp [computeStructuralDiff, hne, defaultDiffOptions, hth, isTextDiffWrapper]
  · intro hle
    have hth : ¬(60 < utf8Len s) := by omega
    simp [computeStructuralDiff, hne, defaultDiffOptions, hth]

/-- Witness for `text_diff_threshold_old_side` at `"ab"` / `"ba"`. -/
theorem text_diff_threshold_old_side_witness :
    ("ab" : String) ≠ "ba"
    ∧ (isTextDiffWrapper
          (computeStructuralDiff (.str "ab") (.str "ba") defaultDiffOptions []).1 = true
        ↔ 60 < utf8Len "ab") :=
  ⟨by decide, (text_diff_threshold_old_side "ab" "ba" (by decide)).1⟩
